import Mathlib

/-!
# Verification of the `widgets` resource-tree core

Shallow embedding of the core logic of the FredHutch/widgets repository
(`src/widgets/base/helpers.py`, `src/widgets/base/resource.py`,
`src/widgets/base/resource_list.py`, `src/widgets/base/replicator.py`)
together with proofs about the embedded definitions.

External libraries used by the Python code (zlib, json, pandas, the UTF-8
codec of `str.encode`/`bytes.decode`) are not part of the repository; they
enter the embedding as explicit function parameters, and the theorems that
depend on their behaviour take that behaviour as hypotheses stated at the
exact inputs involved.  Everything that the repository itself implements
(hex transcoding layout, size-guided branch choice, quoting, dictionary
handling, tree traversal, id bookkeeping) is translated directly from the
source.
-/

namespace Widgets

/-! ## Error taxonomy (`widgets/base/exceptions.py`)

Only the exception classes raised by the modelled code paths appear. -/

inductive Err where
  /-- `ResourceConfigurationException` -/
  | resourceConfig (msg : String)
  /-- `ResourceExecutionException` -/
  | resourceExec (msg : String)
  /-- `WidgetConfigurationException` -/
  | widgetConfig (msg : String)
  deriving DecidableEq, Repr

/-! ## Value codec (`widgets/base/helpers.py`)

Bytes are modelled as natural numbers; a valid byte is `< 256`.
`binascii.b2a_hex` / `binascii.a2b_hex` are implemented concretely
(they are a deterministic transcoding, and their layout is what the
repository's compress/decompress helpers rely on); `zlib.compress`,
`zlib.decompress` and the UTF-8 string codec are parameters. -/

/-- Lower-case hex digit of a value `< 16`, as produced by `binascii.b2a_hex`. -/
def hexDigit (n : Nat) : Char :=
  if n < 10 then Char.ofNat (48 + n) else Char.ofNat (87 + n)

/-- `binascii.b2a_hex`: each byte becomes two lower-case hex characters. -/
def b2aHex (bs : List Nat) : List Char :=
  bs.flatMap (fun b => [hexDigit (b / 16), hexDigit (b % 16)])

/-- Numeric value of one hex character (`binascii.a2b_hex` accepts both
cases); `none` on a non-hex character. -/
def hexVal (c : Char) : Option Nat :=
  if 48 ≤ c.toNat ∧ c.toNat ≤ 57 then some (c.toNat - 48)
  else if 97 ≤ c.toNat ∧ c.toNat ≤ 102 then some (c.toNat - 87)
  else if 65 ≤ c.toNat ∧ c.toNat ≤ 70 then some (c.toNat - 55)
  else none

/-- `binascii.a2b_hex`: consumes hex digits two at a time; errors (modelled
as `none`) on a non-hex character or an odd-length input. -/
def a2bHex : List Char → Option (List Nat)
  | [] => some []
  | [_] => none
  | c1 :: c2 :: rest =>
    match hexVal c1, hexVal c2 with
    | some h, some l =>
      match a2bHex rest with
      | some bs => some ((16 * h + l) :: bs)
      | none => none
    | _, _ => none

theorem hexVal_hexDigit {n : Nat} (h : n < 16) : hexVal (hexDigit n) = some n := by
  interval_cases n <;> rfl

theorem a2bHex_b2aHex (bs : List Nat) (h : ∀ b ∈ bs, b < 256) :
    a2bHex (b2aHex bs) = some bs := by
  induction bs with
  | nil => rfl
  | cons b rest ih =>
    have hb : b < 256 := h b (List.mem_cons_self b rest)
    have hhi : b / 16 < 16 := Nat.div_lt_of_lt_mul (by omega)
    have hlo : b % 16 < 16 := Nat.mod_lt _ (by omega)
    have hrest := ih (fun x hx => h x (List.mem_cons_of_mem _ hx))
    simp only [b2aHex, List.flatMap_cons] at *
    simp only [List.cons_append, List.nil_append, a2bHex, hexVal_hexDigit hhi,
      hexVal_hexDigit hlo, hrest]
    have hdm : 16 * (b / 16) + b % 16 = b := by omega
    rw [show ([].append (rest.flatMap fun b => [hexDigit (b / 16), hexDigit (b % 16)])) =
      rest.flatMap fun b => [hexDigit (b / 16), hexDigit (b % 16)] from rfl, hrest, hdm]

section Compress

-- Models of external codecs: `zlib.compress`, `zlib.decompress` (fallible),
-- `str.encode()` (UTF-8 encode), `bytes.decode()` (UTF-8 decode, fallible).
variable (zcomp : List Nat → List Nat)
variable (zdecomp : List Nat → Option (List Nat))
variable (utf8enc : String → List Nat)
variable (utf8dec : List Nat → Option String)

/-- `compress_string` (helpers.py lines 25-35):
`binascii.b2a_hex(zlib.compress(s.encode())).decode()`. -/
def compressString (s : String) : String :=
  String.mk (b2aHex (zcomp (utf8enc s)))

/-- `decompress_string` (helpers.py lines 38-50):
`zlib.decompress(binascii.a2b_hex(t)).decode()`; any of the three stages
can raise, modelled as `none`. -/
def decompressString (t : String) : Option String :=
  match a2bHex t.data with
  | none => none
  | some bs =>
    match zdecomp bs with
    | none => none
    | some obs => utf8dec obs

theorem decompressString_compressString (s : String)
    (hz : zdecomp (zcomp (utf8enc s)) = some (utf8enc s))
    (hbytes : ∀ b ∈ zcomp (utf8enc s), b < 256)
    (hu : utf8dec (utf8enc s) = some s) :
    decompressString zdecomp utf8dec (compressString zcomp utf8enc s) = some s := by
  simp only [compressString, decompressString]
  rw [a2bHex_b2aHex _ hbytes]
  simp only [hz, hu]

/-- C3: `decompress_string (compress_string s) = s` for every string `s`
(the empty string included), given that the external zlib and UTF-8 codecs
invert themselves on the data involved and that `zlib.compress` produces
bytes. -/
theorem decompress_compress_roundtrip (s : String)
    (hz : zdecomp (zcomp (utf8enc s)) = some (utf8enc s))
    (hbytes : ∀ b ∈ zcomp (utf8enc s), b < 256)
    (hu : utf8dec (utf8enc s) = some s) :
    decompressString zdecomp utf8dec (compressString zcomp utf8enc s) = some s :=
  decompressString_compressString zcomp zdecomp utf8enc utf8dec s hz hbytes hu

end Compress

/-! ## Structured-value codec (`helpers.py`: `encode_dataframe_string`,
`parse_dataframe_string`)

`pandas` and `json` are external: DataFrames (`DF`), "split"-orient dicts
(`SplitT`, a dict whose keys include `index`, `columns` and `data`) and
other dicts (`ODict`) are type parameters, and the pandas/json conversions
are function parameters.  The runtime value handed to
`parse_dataframe_string` is one of: a string, a dict (split-shaped or not —
the shape test `all(cname in value.keys() for cname in [...])` is reflected
in which constructor the value carries), a DataFrame, `None`, or anything
else. -/

inductive PVal (DF SplitT ODict : Type) where
  | vstr (s : String)
  | vsplit (sp : SplitT)
  | vodict (o : ODict)
  | vdf (x : DF)
  | vnone
  | vother
  deriving DecidableEq

section Structured

variable {DF SplitT ODict : Type}

/-- `encode_dataframe_string` (helpers.py lines 100-118): serialize
`val.to_dict(orient="split")` with `json.dumps`, compress it, and emit the
compressed form wrapped in double quotes when it is strictly shorter,
otherwise the raw JSON serialization (unquoted, exactly as the source
returns `val_str`). -/
def encodeDataframeString (zcomp : List Nat → List Nat) (utf8enc : String → List Nat)
    (jdumps : SplitT → String) (toSplit : DF → SplitT) (v : DF) : String :=
  let valStr := jdumps (toSplit v)
  let valComp := compressString zcomp utf8enc valStr
  if valComp.length < valStr.length then "\"" ++ valComp ++ "\"" else valStr

/-- The non-string half of `parse_dataframe_string` (helpers.py lines 63-97):
dispatch on the runtime type of the (possibly already decoded) value. -/
def parseDataframeValue (ofSplit : SplitT → Option DF) (ofODict : ODict → Option DF)
    (emptyDF : DF) : PVal DF SplitT ODict → Except Err DF
  | .vsplit sp =>
    match ofSplit sp with
    | some df => .ok df
    | none => .error (.resourceConfig "value could not be converted to DataFrame")
  | .vodict o =>
    match ofODict o with
    | some df => .ok df
    | none => .error (.resourceConfig "value could not be converted to DataFrame")
  | .vdf x => .ok x
  | .vnone => .ok emptyDF
  | .vstr _ => .error (.resourceConfig "value must be None, dict, or DataFrame")
  | .vother => .error (.resourceConfig "value must be None, dict, or DataFrame")

/-- `parse_dataframe_string` (helpers.py lines 53-97): a string input is
first decompressed and `json.loads`-ed (any failure in that `try` block is a
`ResourceConfigurationException`), then the value is dispatched on its
runtime type. -/
def parseDataframeString (zdecomp : List Nat → Option (List Nat))
    (utf8dec : List Nat → Option String)
    (jloads : String → Option (PVal DF SplitT ODict))
    (ofSplit : SplitT → Option DF) (ofODict : ODict → Option DF) (emptyDF : DF) :
    PVal DF SplitT ODict → Except Err DF
  | .vstr s =>
    match decompressString zdecomp utf8dec s with
    | none => .error (.resourceConfig "value could not be decompressed from string")
    | some t =>
      match jloads t with
      | none => .error (.resourceConfig "value could not be decompressed from string")
      | some v' => parseDataframeValue ofSplit ofODict emptyDF v'
  | v => parseDataframeValue ofSplit ofODict emptyDF v

/-- Decoding the *literal denoted by* the emitted text: in the generated
program the encoder's output is pasted into source code, so a quoted
emission reaches `parse_dataframe_string` as the payload string and an
unquoted JSON dict reaches it as a dict.  `litEval` is that (external,
host-language) literal interpretation. -/
def decodeEmitted (zdecomp : List Nat → Option (List Nat))
    (utf8dec : List Nat → Option String)
    (jloads : String → Option (PVal DF SplitT ODict))
    (ofSplit : SplitT → Option DF) (ofODict : ODict → Option DF) (emptyDF : DF)
    (litEval : String → Option (PVal DF SplitT ODict)) (t : String) : Except Err DF :=
  match litEval t with
  | none => .error (.resourceConfig "emitted text is not a literal")
  | some pv => parseDataframeString zdecomp utf8dec jloads ofSplit ofODict emptyDF pv

end Structured

/-! ### Concrete toy instantiations of the external parameters,
used to exhibit counterexamples and witnesses on closed inputs. -/

/-- Toy zlib: the identity (a legal "compressor" for counterexample purposes;
the repository's branch logic only looks at lengths). -/
def toyZComp : List Nat → List Nat := id

def toyZDecomp : List Nat → Option (List Nat) := some

/-- Toy text encoder: code points (inverse below). -/
def toyUtf8Enc : String → List Nat := fun s => s.data.map Char.toNat

def toyUtf8Dec : List Nat → Option String := fun bs =>
  some (String.mk (bs.map Char.ofNat))

/-- The JSON text `json.dumps` produces for the split dict of an empty
DataFrame. -/
def toyJson : String := "\x7b\"index\": [], \"columns\": [], \"data\": []\x7d"

def toyJDumps : Unit → String := fun _ => toyJson

def toyToSplit : Unit → Unit := fun _ => ()

def toyOfSplit : Unit → Option Unit := fun _ => some ()

def toyOfODict : Unit → Option Unit := fun _ => some ()

def toyJLoads : String → Option (PVal Unit Unit Unit) := fun s =>
  if s = toyJson then some (.vsplit ()) else none

/-- Toy literal interpretation: a double-quoted text denotes the enclosed
string; the empty-table JSON text denotes the split dict; nothing else. -/
def toyLitEval : String → Option (PVal Unit Unit Unit) := fun t =>
  if t.data.take 1 = ['"'] then some (.vstr (String.mk (t.data.drop 1).dropLast))
  else if t = toyJson then some (.vsplit ()) else none


/-! ### C4: size-guided choice and quoting in `encode_dataframe_string` -/

/-- C4 (counterexample to the claim as stated): at the empty table the
compressed hex text is longer than the JSON serialization, so the source
returns the raw `val_str` — and that emission is *not* quoted as a string
literal (its first character is `{`, not `"`). -/
theorem c4_counterexample :
    encodeDataframeString toyZComp toyUtf8Enc toyJDumps toyToSplit () = toyJson
    ∧ (encodeDataframeString toyZComp toyUtf8Enc toyJDumps toyToSplit ()).data.take 1 ≠ ['\"'] := by
  constructor
  · decide
  · decide

/-- C4 (amended): `encode_dataframe_string` emits the compressed form,
wrapped in double quotes, exactly when the compressed text is strictly
shorter than the uncompressed JSON serialization; otherwise it emits the
uncompressed serialization *unquoted* (the emitted text then starts with
`{`, not with a quote). -/
theorem c4_size_guided_choice (zcomp : List Nat → List Nat) (utf8enc : String → List Nat)
    {DF SplitT : Type} (jdumps : SplitT → String) (toSplit : DF → SplitT) (v : DF)
    (hjson : (jdumps (toSplit v)).data.take 1 = ['{']) :
    ((compressString zcomp utf8enc (jdumps (toSplit v))).length < (jdumps (toSplit v)).length →
      encodeDataframeString zcomp utf8enc jdumps toSplit v
        = "\"" ++ compressString zcomp utf8enc (jdumps (toSplit v)) ++ "\""
      ∧ (encodeDataframeString zcomp utf8enc jdumps toSplit v).data.take 1 = ['\"'])
    ∧ (¬ (compressString zcomp utf8enc (jdumps (toSplit v))).length < (jdumps (toSplit v)).length →
      encodeDataframeString zcomp utf8enc jdumps toSplit v = jdumps (toSplit v)
      ∧ (encodeDataframeString zcomp utf8enc jdumps toSplit v).data.take 1 ≠ ['\"']) := by
  constructor
  · intro hlt
    refine ⟨by simp [encodeDataframeString, hlt], ?_⟩
    simp [encodeDataframeString, hlt, String.data_append]
  · intro hge
    refine ⟨by simp [encodeDataframeString, hge], ?_⟩
    have he : encodeDataframeString zcomp utf8enc jdumps toSplit v = jdumps (toSplit v) := by
      simp [encodeDataframeString, hge]
    rw [he, hjson]
    decide

/-- C4 witness: the amended statement instantiated at the toy empty-table
encoding. -/
theorem c4_size_guided_choice_witness :
    ((compressString toyZComp toyUtf8Enc (toyJDumps (toyToSplit ()))).length
        < (toyJDumps (toyToSplit ())).length →
      encodeDataframeString toyZComp toyUtf8Enc toyJDumps toyToSplit ()
        = "\"" ++ compressString toyZComp toyUtf8Enc (toyJDumps (toyToSplit ())) ++ "\""
      ∧ (encodeDataframeString toyZComp toyUtf8Enc toyJDumps toyToSplit ()).data.take 1 = ['\"'])
    ∧ (¬ (compressString toyZComp toyUtf8Enc (toyJDumps (toyToSplit ()))).length
        < (toyJDumps (toyToSplit ())).length →
      encodeDataframeString toyZComp toyUtf8Enc toyJDumps toyToSplit () = toyJDumps (toyToSplit ())
      ∧ (encodeDataframeString toyZComp toyUtf8Enc toyJDumps toyToSplit ()).data.take 1 ≠ ['\"']) :=
  c4_size_guided_choice toyZComp toyUtf8Enc toyJDumps toyToSplit () (by decide)

/-! ### C2: the structured-value round-trip law -/

/-- C2 (counterexample to the claim as stated): composing the encoder and
the decoder directly, `parse_dataframe_string(encode_dataframe_string(v))`,
fails for the empty table: the emitted text (quoted hex, or raw JSON
starting with `{`) is not itself valid hex, so the decompress stage raises a
`ResourceConfigurationException`. -/
theorem c2_counterexample :
    parseDataframeString toyZDecomp toyUtf8Dec toyJLoads toyOfSplit toyOfODict ()
      (.vstr (encodeDataframeString toyZComp toyUtf8Enc toyJDumps toyToSplit ()))
      = .error (.resourceConfig "value could not be decompressed from string") := by
  rfl

/-- C2 (amended): decoding the *literal denoted by* the encoder's output
returns the original value: the quoted emission reaches
`parse_dataframe_string` as the enclosed payload string and decompresses
back, the unquoted emission reaches it as the split dict directly.  The
external json / pandas / zlib / UTF-8 conversions are assumed to invert
each other on the data involved. -/
theorem c2_literal_roundtrip (zcomp : List Nat → List Nat)
    (zdecomp : List Nat → Option (List Nat)) (utf8enc : String → List Nat)
    (utf8dec : List Nat → Option String) {DF SplitT ODict : Type}
    (jdumps : SplitT → String) (jloads : String → Option (PVal DF SplitT ODict))
    (toSplit : DF → SplitT) (ofSplit : SplitT → Option DF)
    (ofODict : ODict → Option DF) (emptyDF : DF)
    (litEval : String → Option (PVal DF SplitT ODict)) (v : DF)
    (hz : zdecomp (zcomp (utf8enc (jdumps (toSplit v)))) = some (utf8enc (jdumps (toSplit v))))
    (hbytes : ∀ b ∈ zcomp (utf8enc (jdumps (toSplit v))), b < 256)
    (hu : utf8dec (utf8enc (jdumps (toSplit v))) = some (jdumps (toSplit v)))
    (hjl : jloads (jdumps (toSplit v)) = some (.vsplit (toSplit v)))
    (hps : ofSplit (toSplit v) = some v)
    (hlitq : litEval ("\"" ++ compressString zcomp utf8enc (jdumps (toSplit v)) ++ "\"")
      = some (.vstr (compressString zcomp utf8enc (jdumps (toSplit v)))))
    (hlitd : litEval (jdumps (toSplit v)) = some (.vsplit (toSplit v))) :
    decodeEmitted zdecomp utf8dec jloads ofSplit ofODict emptyDF litEval
      (encodeDataframeString zcomp utf8enc jdumps toSplit v) = .ok v := by
  unfold encodeDataframeString decodeEmitted
  by_cases hlt : (compressString zcomp utf8enc (jdumps (toSplit v))).length
      < (jdumps (toSplit v)).length
  · simp only [if_pos hlt, hlitq]
    have h1 : decompressString zdecomp utf8dec
        (compressString zcomp utf8enc (jdumps (toSplit v))) = some (jdumps (toSplit v)) :=
      decompressString_compressString zcomp zdecomp utf8enc utf8dec _ hz hbytes hu
    simp only [parseDataframeString, h1, hjl, parseDataframeValue, hps]
  · simp only [if_neg hlt, hlitd]
    simp only [parseDataframeString, parseDataframeValue, hps]

/-- C2 witness: the amended round trip evaluated at the toy empty table. -/
theorem c2_literal_roundtrip_witness :
    decodeEmitted toyZDecomp toyUtf8Dec toyJLoads toyOfSplit toyOfODict () toyLitEval
      (encodeDataframeString toyZComp toyUtf8Enc toyJDumps toyToSplit ()) = .ok () :=
  c2_literal_roundtrip toyZComp toyZDecomp toyUtf8Enc toyUtf8Dec toyJDumps toyJLoads
    toyToSplit toyOfSplit toyOfODict () toyLitEval ()
    (by decide) (by decide) (by decide) (by decide) (by decide) (by decide) (by decide)

/-- C3 witness: the string round trip evaluated at a concrete string with
the toy codecs. -/
theorem decompress_compress_roundtrip_witness :
    decompressString toyZDecomp toyUtf8Dec (compressString toyZComp toyUtf8Enc "ab")
      = some "ab" :=
  decompress_compress_roundtrip toyZComp toyZDecomp toyUtf8Enc toyUtf8Dec "ab"
    (by decide) (by decide) (by decide)

/-! ## Resource trees (`widgets/base/resource.py`)

A `Resource` is a node with an `id`, a `value` (the entry of `__dict__`
with specialized get/set paths), the remaining instance attributes
(`__dict__` entries attached from keyword arguments or `set_attr`), and an
ordered list of children.  Values are opaque (`V`).  The child list is its
own inductive (`RForest`) so that all traversals are structural and reduce
in the kernel.  The `_children_dict` built by `_attach_child` maps each
child id to the child; under the uniqueness its construction enforces,
lookup in it coincides with first-match lookup in the child list, which is
how `RForest.find` models `self._children_dict.get(child_id)`. -/

mutual
inductive RNode (V : Type) where
  | mk (id : String) (value : V) (attrs : List (String × V)) (children : RForest V)
inductive RForest (V : Type) where
  | nil
  | cons (hd : RNode V) (tl : RForest V)
end

section TreeDefs

variable {V : Type}

def RNode.id : RNode V → String
  | .mk i _ _ _ => i

def RNode.value : RNode V → V
  | .mk _ v _ _ => v

def RNode.attrs : RNode V → List (String × V)
  | .mk _ _ a _ => a

def RNode.children : RNode V → RForest V
  | .mk _ _ _ ch => ch

/-- `self._children_dict.get(child_id)` (see the note above). -/
def RForest.find : RForest V → String → Option (RNode V)
  | .nil, _ => none
  | .cons n rest, cid => if n.id = cid then some n else rest.find cid

/-- Replace the child with the given id (the pure-model image of mutating
that child in place). -/
def RForest.replace : RForest V → String → RNode V → RForest V
  | .nil, _, _ => .nil
  | .cons n rest, cid, n' => if n.id = cid then .cons n' rest else .cons n (rest.replace cid n')

/-- `Resource._get_child` (resource.py lines 472-490) iterated along a path,
together with the `len(path) > 0` dispatch of `get`/`set`: the empty path
resolves to the node itself. -/
def resolvePath (n : RNode V) : List String → Except Err (RNode V)
  | [] => .ok n
  | cid :: rest =>
    match n.children.find cid with
    | none => .error (.resourceExec ("No child resource exists within " ++ n.id ++ ": " ++ cid))
    | some c => resolvePath c rest

/-- The attribute mapping of `self.__dict__`: `value` is always present
(assigned by `__init__`), the remaining instance attributes follow. -/
def instDict (n : RNode V) : List (String × V) :=
  ("value", n.value) :: n.attrs

/-- `Resource.get_attr` (resource.py lines 530-546): instance `__dict__`
first, then the class `__dict__` (`clsAttrs`), else a
`ResourceExecutionException`. -/
def get_attr (clsAttrs : List (String × V)) (n : RNode V) (attr : String) : Except Err V :=
  match (instDict n).lookup attr with
  | some v => .ok v
  | none =>
    match clsAttrs.lookup attr with
    | some v => .ok v
    | none => .error (.resourceExec ("Attribute does not exist " ++ attr ++ " for " ++ n.id))

/-- `Resource.get` (resource.py lines 501-528); the base-class
`get_value` is `get_attr("value")`. -/
def Resource.get (clsAttrs : List (String × V)) (t : RNode V) (path : List String)
    (attr : String) : Except Err V :=
  match resolvePath t path with
  | .error e => .error e
  | .ok r => if attr = "value" then get_attr clsAttrs r "value" else get_attr clsAttrs r attr

/-- Python dict assignment `self.__dict__[attr] = val`: update in place if
the key exists, else append. -/
def assocSet : List (String × V) → String → V → List (String × V)
  | [], k, v => [(k, v)]
  | (k', v') :: rest, k, v =>
    if k' = k then (k', v) :: rest else (k', v') :: assocSet rest k v

/-- `set_attr` / `set_value` (resource.py lines 596-604): both end in
`self.__dict__[attr] = val`; writing `"value"` updates the dedicated
field. -/
def setAttrLocal (n : RNode V) (attr : String) (v : V) : RNode V :=
  match n with
  | .mk i v0 a ch => if attr = "value" then .mk i v a ch else .mk i v0 (assocSet a attr v) ch

/-- `Resource.set` (resource.py lines 556-594): resolve the path, assign the
attribute (special-casing `"value"` through `set_value`), and, if the
`update` flag is set, invoke the resolved node's `run_self()`.  The returned
event list records each `run_self` dispatch as (node id, node value at the
moment of the call); the base-class hook itself is a no-op, the record is
the observable for "the hook was invoked with this state". -/
def Resource.set (t : RNode V) (path : List String) (attr : String) (v : V)
    (update : Bool) : Except Err (RNode V × List (String × V)) :=
  match path with
  | [] =>
    let n' := setAttrLocal t attr v
    .ok (n', if update then [(n'.id, n'.value)] else [])
  | cid :: rest =>
    match t.children.find cid with
    | none => .error (.resourceExec ("No child resource exists within " ++ t.id ++ ": " ++ cid))
    | some c =>
      match Resource.set c rest attr v update with
      | .error e => .error e
      | .ok (c', evs) =>
        match t with
        | .mk i v0 a ch => .ok (.mk i v0 a (ch.replace cid c'), evs)

end TreeDefs

section TreeSet

variable {V : Type}

theorem setAttrLocal_value_eq (n : RNode V) (v : V) :
    setAttrLocal n "value" v = match n with | .mk i _ a ch => RNode.mk i v a ch := by
  cases n; simp [setAttrLocal]

theorem setAttrLocal_id (n : RNode V) (v : V) : (setAttrLocal n "value" v).id = n.id := by
  cases n; simp [setAttrLocal, RNode.id]

theorem setAttrLocal_value (n : RNode V) (v : V) : (setAttrLocal n "value" v).value = v := by
  cases n; simp [setAttrLocal, RNode.value]

theorem find_some_id : ∀ (f : RForest V) (cid : String) (c : RNode V),
    f.find cid = some c → c.id = cid
  | .nil, _, _ => by simp [RForest.find]
  | .cons n rest, cid, c => by
    simp only [RForest.find]
    split
    · rename_i h
      intro he
      cases he
      exact h
    · exact find_some_id rest cid c

theorem find_replace : ∀ (f : RForest V) (cid : String) (c c' : RNode V),
    f.find cid = some c → c'.id = cid → (f.replace cid c').find cid = some c'
  | .nil, _, _, _ => by simp [RForest.find]
  | .cons n rest, cid, c, c' => by
    intro hf hid
    by_cases h : n.id = cid
    · simp only [RForest.replace, if_pos h, RForest.find, hid, if_pos]
    · simp only [RForest.find, if_neg h] at hf
      simp only [RForest.replace, if_neg h, RForest.find]
      exact find_replace rest cid c c' hf hid

/-- Induction core for C5: setting `"value"` along a resolvable path
produces one updated tree; with `update` the event trace is exactly one
`run_self` dispatch at the target carrying the new value, without it the
trace is empty; and re-resolving the path reaches the updated target. -/
theorem set_value_go (v : V) :
    ∀ (path : List String) (t target : RNode V), resolvePath t path = .ok target →
    ∃ t', t'.id = t.id
      ∧ (∀ upd, Resource.set t path "value" v upd
          = .ok (t', if upd then [(target.id, v)] else []))
      ∧ resolvePath t' path = .ok (setAttrLocal target "value" v) := by
  intro path
  induction path with
  | nil =>
    intro t target hres
    simp only [resolvePath, Except.ok.injEq] at hres
    subst hres
    refine ⟨setAttrLocal t "value" v, setAttrLocal_id t v, ?_, rfl⟩
    intro upd
    cases upd <;>
      simp [Resource.set, setAttrLocal_id, setAttrLocal_value]
  | cons cid rest ih =>
    intro t target hres
    simp only [resolvePath] at hres
    cases hfind : t.children.find cid with
    | none => rw [hfind] at hres; exact absurd hres (by simp)
    | some c =>
      rw [hfind] at hres
      obtain ⟨c', hcid, hset, hres'⟩ := ih c target hres
      cases t with
      | mk i v0 a ch =>
        have hfind' : ch.find cid = some c := hfind
        refine ⟨RNode.mk i v0 a (ch.replace cid c'), rfl, ?_, ?_⟩
        · intro upd
          simp only [Resource.set, RNode.children, hfind', hset upd]
        · have hcid' : c'.id = cid := by
            rw [hcid]; exact find_some_id ch cid c hfind'
          simp only [resolvePath, RNode.children, find_replace ch cid c c' hfind' hcid']
          exact hres'

/-- C5: for every node reachable by a valid path, `set(path, "value", v)`
with `update=True` assigns `v` and dispatches the resolved node's
`run_self` exactly once, synchronously within the call, with the new value
already visible to that invocation (the single trace event carries `v`);
with `update=False` no `run_self` dispatch happens; and in both cases the
assignment is visible through `get(path, "value")`. -/
theorem c5_set_propagates_once (clsAttrs : List (String × V)) (t : RNode V)
    (path : List String) (v : V) (target : RNode V)
    (hres : resolvePath t path = .ok target) :
    ∃ t', Resource.set t path "value" v true = .ok (t', [(target.id, v)])
      ∧ Resource.set t path "value" v false = .ok (t', [])
      ∧ Resource.get clsAttrs t' path "value" = .ok v := by
  obtain ⟨t', _, hset, hres'⟩ := set_value_go v path t target hres
  refine ⟨t', by simpa using hset true, by simpa using hset false, ?_⟩
  simp only [Resource.get, hres']
  simp [get_attr, instDict, setAttrLocal_value]

/-- C5 witness: a two-level concrete tree; setting `["mid", "b"]` runs
`run_self` once at `b` with the new value, and not at all when
`update=False`. -/
theorem c5_set_propagates_once_witness :
    ∃ t', Resource.set
        (RNode.mk "top" 0 []
          (.cons (RNode.mk "mid" 1 [] (.cons (RNode.mk "b" 2 [] .nil) .nil)) .nil))
        ["mid", "b"] "value" 7 true = .ok (t', [("b", 7)])
      ∧ Resource.set
        (RNode.mk "top" 0 []
          (.cons (RNode.mk "mid" 1 [] (.cons (RNode.mk "b" 2 [] .nil) .nil)) .nil))
        ["mid", "b"] "value" 7 false = .ok (t', [])
      ∧ Resource.get [] t' ["mid", "b"] "value" = .ok 7 :=
  c5_set_propagates_once ([] : List (String × Nat))
    (RNode.mk "top" 0 []
      (.cons (RNode.mk "mid" 1 [] (.cons (RNode.mk "b" 2 [] .nil) .nil)) .nil))
    ["mid", "b"] 7 (RNode.mk "b" 2 [] .nil) (by rfl)

end TreeSet

/-! ## Construction-time validation (`Resource.__init__`,
`Resource._attach_children`, `Resource._attach_child`) and the
`ResourceList` sibling check. -/

section TreeConstruct

variable {V : Type}

/-- Ids of the nodes of a forest, in order. -/
def forestIds : RForest V → List String
  | .nil => []
  | .cons c rest => c.id :: forestIds rest

/-- The association list `_attach_child` builds: each child keyed by id,
in attach order. -/
def forestPairs : RForest V → List (String × RNode V)
  | .nil => []
  | .cons c rest => (c.id, c) :: forestPairs rest

/-- `Resource._attach_child` (resource.py lines 128-148) folded over the
child list by `_attach_children`: a child whose id is already a key of
`_children_dict` raises `ResourceConfigurationException`; otherwise it is
added to the dict. -/
def attachChildren : RForest V → List (String × RNode V) → Except Err (List (String × RNode V))
  | .nil, d => .ok d
  | .cons c rest, d =>
    if (d.lookup c.id).isSome then
      .error (.resourceConfig ("Resource ids must be unique (repeated: " ++ c.id ++ ")"))
    else attachChildren rest (d ++ [(c.id, c)])

mutual
/-- The validation performed by a nested `Resource(...)` construction
(resource.py lines 37-148): the child constructor calls run first
(inner-most first, in list order), then the node's own empty-id check,
then `_attach_children`. -/
def constructNode : RNode V → Except Err Unit
  | .mk i _ _ ch =>
    match constructForest ch with
    | .error e => .error e
    | .ok () =>
      if i.length = 0 then .error (.resourceConfig "Must provide id for Resource")
      else
        match attachChildren ch [] with
        | .error e => .error e
        | .ok _ => .ok ()

def constructForest : RForest V → Except Err Unit
  | .nil => .ok ()
  | .cons c rest =>
    match constructNode c with
    | .error e => .error e
    | .ok () => constructForest rest
end

mutual
/-- Some node of the tree has two children with the same id. -/
def nodeHasDup : RNode V → Bool
  | .mk _ _ _ ch => !(forestIds ch).Nodup || forestHasDup ch

def forestHasDup : RForest V → Bool
  | .nil => false
  | .cons c rest => nodeHasDup c || forestHasDup rest
end

mutual
/-- Every id in the tree is non-empty. -/
def nodeIdsNonempty : RNode V → Bool
  | .mk i _ _ ch => !(i.length = 0) && forestIdsNonempty ch

def forestIdsNonempty : RForest V → Bool
  | .nil => true
  | .cons c rest => nodeIdsNonempty c && forestIdsNonempty rest
end

theorem lookup_isSome_iff {α : Type} : ∀ (d : List (String × α)) (k : String),
    (d.lookup k).isSome = true ↔ k ∈ d.map Prod.fst
  | [], k => by simp [List.lookup]
  | (k', v) :: rest, k => by
    by_cases h : k = k'
    · subst h; simp [List.lookup]
    · have hbeq : (k == k') = false := beq_false_of_ne h
      simp [List.lookup, hbeq, lookup_isSome_iff rest k, h]

theorem forestIds_pairs_keys (f : RForest V) :
    (forestPairs f).map Prod.fst = forestIds f := by
  induction f using forestPairs.induct with
  | case1 => rfl
  | case2 c rest ih => simp [forestPairs, forestIds, ih]

theorem attachChildren_ok : ∀ (f : RForest V) (d : List (String × RNode V)),
    (d.map Prod.fst ++ forestIds f).Nodup →
    attachChildren f d = .ok (d ++ forestPairs f)
  | .nil, d, _ => by simp [attachChildren, forestPairs]
  | .cons c rest, d, h => by
    have hmem : ¬ c.id ∈ d.map Prod.fst := by
      intro hc
      have := (List.nodup_append.mp h).2.2
      exact this hc (by simp [forestIds])
    have hs : (d.lookup c.id).isSome = false := by
      rw [Bool.eq_false_iff]
      intro hc
      exact hmem ((lookup_isSome_iff d c.id).mp hc)
    simp only [attachChildren, hs, Bool.false_eq_true, if_false]
    have hperm : ((d ++ [(c.id, c)]).map Prod.fst ++ forestIds rest).Nodup := by
      simp only [List.map_append, List.map_cons, List.map_nil, List.append_assoc,
        List.cons_append, List.nil_append]
      simpa [forestIds, List.append_assoc] using h
    rw [attachChildren_ok rest (d ++ [(c.id, c)]) hperm]
    simp [forestPairs, List.append_assoc]

theorem attachChildren_err : ∀ (f : RForest V) (d : List (String × RNode V)),
    (d.map Prod.fst).Nodup → ¬ (d.map Prod.fst ++ forestIds f).Nodup →
    ∃ m, attachChildren f d = .error (.resourceConfig m)
  | .nil, d, hd, h => by
    exact absurd (by simpa [forestIds] using hd) h
  | .cons c rest, d, hd, h => by
    by_cases hmem : c.id ∈ d.map Prod.fst
    · have hs : (d.lookup c.id).isSome = true := (lookup_isSome_iff d c.id).mpr hmem
      exact ⟨"Resource ids must be unique (repeated: " ++ c.id ++ ")",
        by simp [attachChildren, hs]⟩
    · have hs : (d.lookup c.id).isSome = false := by
        rw [Bool.eq_false_iff]
        intro hc
        exact hmem ((lookup_isSome_iff d c.id).mp hc)
      have hd' : ((d ++ [(c.id, c)]).map Prod.fst).Nodup := by
        simp only [List.map_append, List.map_cons, List.map_nil]
        rw [List.nodup_append]
        exact ⟨hd, List.nodup_singleton _, by simpa using hmem⟩
      have h' : ¬ ((d ++ [(c.id, c)]).map Prod.fst ++ forestIds rest).Nodup := by
        intro hc
        apply h
        simpa [forestIds, List.append_assoc] using hc
      obtain ⟨m, hm⟩ := attachChildren_err rest (d ++ [(c.id, c)]) hd' h'
      exact ⟨m, by simp [attachChildren, hs, hm]⟩

mutual
theorem constructNode_spec : ∀ t : RNode V, nodeIdsNonempty t = true →
    (nodeHasDup t = true → ∃ m, constructNode t = .error (.resourceConfig m))
    ∧ (nodeHasDup t = false → constructNode t = .ok ())
  | .mk i v a ch, hne => by
    simp only [nodeIdsNonempty, Bool.and_eq_true, Bool.not_eq_true',
      decide_eq_false_iff_not] at hne
    obtain ⟨hi, hch⟩ := hne
    have hf := constructForest_spec ch hch
    constructor
    · intro hdup
      simp only [nodeHasDup, Bool.or_eq_true] at hdup
      by_cases hfd : forestHasDup ch = true
      · obtain ⟨m, hm⟩ := hf.1 hfd
        exact ⟨m, by simp [constructNode, hm]⟩
      · have hok := hf.2 (by simpa using hfd)
        have hids : ¬ (forestIds ch).Nodup := by
          rcases hdup with hdup | hdup
          · simpa using hdup
          · exact absurd hdup hfd
        obtain ⟨m, hm⟩ := attachChildren_err ch [] (by simp) (by simpa using hids)
        exact ⟨m, by simp [constructNode, hok, hi, hm]⟩
    · intro hdup
      simp only [nodeHasDup, Bool.or_eq_false_iff, Bool.not_eq_false'] at hdup
      obtain ⟨hids, hfd⟩ := hdup
      have hok := hf.2 hfd
      have hatt := attachChildren_ok ch [] (by simpa using hids)
      simp [constructNode, hok, hi, hatt]

theorem constructForest_spec : ∀ f : RForest V, forestIdsNonempty f = true →
    (forestHasDup f = true → ∃ m, constructForest f = .error (.resourceConfig m))
    ∧ (forestHasDup f = false → constructForest f = .ok ())
  | .nil, _ => by simp [forestHasDup, constructForest]
  | .cons c rest, hne => by
    simp only [forestIdsNonempty, Bool.and_eq_true] at hne
    have hc := constructNode_spec c hne.1
    have hr := constructForest_spec rest hne.2
    constructor
    · intro hdup
      simp only [forestHasDup, Bool.or_eq_true] at hdup
      by_cases hcd : nodeHasDup c = true
      · obtain ⟨m, hm⟩ := hc.1 hcd
        exact ⟨m, by simp [constructForest, hm]⟩
      · have hcok := hc.2 (by simpa using hcd)
        have hrd : forestHasDup rest = true := by
          rcases hdup with hdup | hdup
          · exact absurd hdup hcd
          · exact hdup
        obtain ⟨m, hm⟩ := hr.1 hrd
        exact ⟨m, by simp [constructForest, hcok, hm]⟩
    · intro hdup
      simp only [forestHasDup, Bool.or_eq_false_iff] at hdup
      simp [constructForest, hc.2 hdup.1, hr.2 hdup.2]
end

/-- C6: constructing a tree in which some node has two children with the
same id always raises a `ResourceConfigurationException`, whatever the
nesting depth; when no node does, construction succeeds and
`_attach_children` records every child exactly once, in order (no silent
overwrite or drop). -/
theorem c6_duplicate_sibling_id_raises (t : RNode V) (hne : nodeIdsNonempty t = true) :
    (nodeHasDup t = true → ∃ m, constructNode t = .error (.resourceConfig m))
    ∧ (nodeHasDup t = false → constructNode t = .ok ()
        ∧ attachChildren t.children [] = .ok (forestPairs t.children)) := by
  have h := constructNode_spec t hne
  refine ⟨h.1, fun hdup => ⟨h.2 hdup, ?_⟩⟩
  cases t with
  | mk i v a ch =>
    simp only [nodeHasDup, Bool.or_eq_false_iff, Bool.not_eq_false'] at hdup
    exact attachChildren_ok ch [] (by simpa using hdup.1)

/-- Concrete tree with a duplicate sibling id (`x`, `x`) two levels down. -/
def c6tree : RNode Nat :=
  RNode.mk "top" 0 []
    (.cons (RNode.mk "mid" 1 []
      (.cons (RNode.mk "x" 2 [] .nil) (.cons (RNode.mk "x" 3 [] .nil) .nil))) .nil)

/-- C6 witness: on `c6tree` (duplicate two levels down) construction
raises. -/
theorem c6_duplicate_sibling_id_raises_witness :
    (nodeHasDup c6tree = true → ∃ m, constructNode c6tree = .error (.resourceConfig m))
    ∧ (nodeHasDup c6tree = false → constructNode c6tree = .ok ()
        ∧ attachChildren c6tree.children [] = .ok (forestPairs c6tree.children)) :=
  c6_duplicate_sibling_id_raises c6tree (by rfl)

end TreeConstruct

/-! ## `Resource.all_values` and `Resource._flatten`
(resource.py lines 606-689)

The nested result mirrors the tree: a childless node contributes
`get_value()` (a leaf), a node with children contributes the dict of its
children's `all_values()` results (the recursive calls do not forward
`flatten`, so nesting below the target is always the nested form).
`_flatten` walks that nested dict: dict-valued entries are recursed into,
other entries are inserted into `_running`, raising on a repeated key. -/

mutual
inductive NVal (V : Type) where
  | leaf (v : V)
  | node (entries : NEntries V)
inductive NEntries (V : Type) where
  | nil
  | cons (k : String) (val : NVal V) (rest : NEntries V)
end

section AllValues

variable {V : Type}

mutual
/-- `child.all_values(**kwargs)` with default arguments (no `flatten`). -/
def allValuesNode : RNode V → NVal V
  | .mk _ v _ .nil => .leaf v
  | .mk _ _ _ (.cons c rest) => .node (allValuesForest (.cons c rest))

def allValuesForest : RForest V → NEntries V
  | .nil => .nil
  | .cons c rest => .cons c.id (allValuesNode c) (allValuesForest rest)
end

mutual
/-- One step of the `for kw, val in values.items()` loop of `_flatten`:
a dict value is flattened recursively into `_running`, any other value is
inserted under its key, raising `ResourceExecutionException` if the key is
already present. -/
def flattenVal : String → NVal V → List (String × V) → Except Err (List (String × V))
  | _, .node inner, running => flattenEntries inner running
  | k, .leaf x, running =>
    if (running.lookup k).isSome then
      .error (.resourceExec ("Cannot flatten, duplicate .id found: " ++ k))
    else .ok (running ++ [(k, x)])

/-- `Resource._flatten` (resource.py lines 672-689). -/
def flattenEntries : NEntries V → List (String × V) → Except Err (List (String × V))
  | .nil, running => .ok running
  | .cons k v rest, running =>
    match flattenVal k v running with
    | .error e => .error e
    | .ok running' => flattenEntries rest running'
end

/-- Re-package the flat dict as a (flat) nested value, for a uniform
return type. -/
def ofFlat : List (String × V) → NEntries V
  | [] => .nil
  | (k, x) :: rest => .cons k (.leaf x) (ofFlat rest)

/-- `Resource.all_values` (resource.py lines 606-670). -/
def Resource.all_values (t : RNode V) (path : List String) (flatten : Bool) :
    Except Err (NVal V) :=
  match path with
  | cid :: rest =>
    match t.children.find cid with
    | none => .error (.resourceExec ("No child resource exists within " ++ t.id ++ ": " ++ cid))
    | some c => Resource.all_values c rest flatten
  | [] =>
    match t.children with
    | .nil => .ok (.leaf t.value)
    | ch =>
      if flatten then
        match flattenEntries (allValuesForest ch) [] with
        | .error e => .error e
        | .ok flat => .ok (.node (ofFlat flat))
      else .ok (.node (allValuesForest ch))

mutual
/-- The keys `_flatten` would insert, in insertion order. -/
def flatKeysVal : String → NVal V → List String
  | k, .leaf _ => [k]
  | _, .node inner => flatKeysEntries inner

def flatKeysEntries : NEntries V → List String
  | .nil => []
  | .cons k v rest => flatKeysVal k v ++ flatKeysEntries rest
end

mutual
/-- The pairs `_flatten` would insert, in insertion order. -/
def flatPairsVal : String → NVal V → List (String × V)
  | k, .leaf x => [(k, x)]
  | _, .node inner => flatPairsEntries inner

def flatPairsEntries : NEntries V → List (String × V)
  | .nil => []
  | .cons k v rest => flatPairsVal k v ++ flatPairsEntries rest
end

mutual
/-- Ids of the childless strict descendants of a node. -/
def childlessIdsN : RNode V → List String
  | .mk i _ _ .nil => [i]
  | .mk _ _ _ (.cons c rest) => childlessIdsF (.cons c rest)

def childlessIdsF : RForest V → List String
  | .nil => []
  | .cons c rest => childlessIdsN c ++ childlessIdsF rest
end

mutual
/-- The ids whose values end up in the flattened dict are exactly the ids of
the childless descendants. -/
theorem leafIds_eq_childless_n : ∀ c : RNode V,
    flatKeysVal c.id (allValuesNode c) = childlessIdsN c
  | .mk i v a .nil => by
    simp [allValuesNode, flatKeysVal, childlessIdsN, RNode.id]
  | .mk i v a (.cons c2 rest2) => by
    simp [allValuesNode, flatKeysVal, childlessIdsN, RNode.id,
      leafIds_eq_childless (RForest.cons c2 rest2)]

theorem leafIds_eq_childless : ∀ f : RForest V,
    flatKeysEntries (allValuesForest f) = childlessIdsF f
  | .nil => rfl
  | .cons c rest => by
    simp [allValuesForest, flatKeysEntries, childlessIdsF,
      leafIds_eq_childless_n c, leafIds_eq_childless rest]
end

mutual
theorem flatPairs_keys_v : ∀ (k : String) (v : NVal V),
    (flatPairsVal k v).map Prod.fst = flatKeysVal k v
  | k, .leaf x => rfl
  | k, .node inner => flatPairs_keys_e inner

theorem flatPairs_keys_e : ∀ es : NEntries V,
    (flatPairsEntries es).map Prod.fst = flatKeysEntries es
  | .nil => rfl
  | .cons k v rest => by
    simp [flatPairsEntries, flatKeysEntries, flatPairs_keys_v k v, flatPairs_keys_e rest]
end

mutual
theorem flattenVal_ok : ∀ (k : String) (v : NVal V) (running : List (String × V)),
    (running.map Prod.fst ++ flatKeysVal k v).Nodup →
    flattenVal k v running = .ok (running ++ flatPairsVal k v)
  | k, .leaf x, running => by
    intro h
    have hmem : ¬ k ∈ running.map Prod.fst := by
      intro hc
      exact (List.nodup_append.mp h).2.2 hc (by simp [flatKeysVal])
    have hs : (running.lookup k).isSome = false := by
      rw [Bool.eq_false_iff]
      intro hc
      exact hmem ((lookup_isSome_iff running k).mp hc)
    simp [flattenVal, hs, flatPairsVal]
  | k, .node inner, running => by
    intro h
    simpa [flattenVal, flatPairsVal] using
      flattenEntries_ok inner running (by simpa [flatKeysVal] using h)

theorem flattenEntries_ok : ∀ (es : NEntries V) (running : List (String × V)),
    (running.map Prod.fst ++ flatKeysEntries es).Nodup →
    flattenEntries es running = .ok (running ++ flatPairsEntries es)
  | .nil, running => by
    intro h
    simp [flattenEntries, flatPairsEntries]
  | .cons k v rest, running => by
    intro h
    rw [flatKeysEntries, ← List.append_assoc] at h
    have hleft := (List.nodup_append.mp h).1
    have hv := flattenVal_ok k v running hleft
    have hrec := flattenEntries_ok rest (running ++ flatPairsVal k v) (by
      simpa [List.map_append, flatPairs_keys_v] using h)
    simp only [flattenEntries, hv, hrec, List.append_assoc, flatPairsEntries]
end

mutual
theorem flattenVal_err : ∀ (k : String) (v : NVal V) (running : List (String × V)),
    (running.map Prod.fst).Nodup →
    ¬ (running.map Prod.fst ++ flatKeysVal k v).Nodup →
    ∃ k', flattenVal k v running
      = .error (.resourceExec ("Cannot flatten, duplicate .id found: " ++ k'))
  | k, .leaf x, running => by
    intro hr h
    have hmem : k ∈ running.map Prod.fst := by
      by_contra hmem
      apply h
      rw [List.nodup_append]
      refine ⟨hr, List.nodup_singleton _, ?_⟩
      intro a ha hb
      simp only [flatKeysVal, List.mem_singleton] at hb
      exact hmem (hb ▸ ha)
    have hs : (running.lookup k).isSome = true := (lookup_isSome_iff running k).mpr hmem
    exact ⟨k, by simp [flattenVal, hs]⟩
  | k, .node inner, running => by
    intro hr h
    simpa [flattenVal] using
      flattenEntries_err inner running hr (by simpa [flatKeysVal] using h)

theorem flattenEntries_err : ∀ (es : NEntries V) (running : List (String × V)),
    (running.map Prod.fst).Nodup →
    ¬ (running.map Prod.fst ++ flatKeysEntries es).Nodup →
    ∃ k', flattenEntries es running
      = .error (.resourceExec ("Cannot flatten, duplicate .id found: " ++ k'))
  | .nil, running => by
    intro hr h
    exact absurd (by simpa [flatKeysEntries] using hr) h
  | .cons k v rest, running => by
    intro hr h
    rw [flatKeysEntries, ← List.append_assoc] at h
    by_cases hl : (running.map Prod.fst ++ flatKeysVal k v).Nodup
    · have hv := flattenVal_ok k v running hl
      have hr' : ((running ++ flatPairsVal k v).map Prod.fst).Nodup := by
        simpa [List.map_append, flatPairs_keys_v] using hl
      have h' : ¬ ((running ++ flatPairsVal k v).map Prod.fst ++ flatKeysEntries rest).Nodup := by
        intro hc
        apply h
        simpa [List.map_append, flatPairs_keys_v] using hc
      obtain ⟨k', hk'⟩ := flattenEntries_err rest (running ++ flatPairsVal k v) hr' h'
      exact ⟨k', by simp [flattenEntries, hv, hk']⟩
    · obtain ⟨k', hk'⟩ := flattenVal_err k v running hr hl
      exact ⟨k', by simp [flattenEntries, hk']⟩
end

/-- C7 (amended): on a tree whose root has children, `all_values` with
`flatten=False` always succeeds with the nested mapping mirroring the tree
shape; with `flatten=True` it succeeds exactly when the ids of the
*childless* descendants are pairwise distinct, and raises a
`ResourceExecutionException` ("Cannot flatten, duplicate .id found") as
soon as two childless descendants share an id.  Duplicate ids carried by
nodes *with* children never collide: their entries are dicts, which
`_flatten` recurses into without inserting their own key. -/
theorem c7_flatten_duplicates (t : RNode V) (c0 : RNode V) (f0 : RForest V)
    (hch : t.children = .cons c0 f0) :
    Resource.all_values t [] false = .ok (.node (allValuesForest t.children))
    ∧ ((childlessIdsF t.children).Nodup →
        Resource.all_values t [] true
          = .ok (.node (ofFlat (flatPairsEntries (allValuesForest t.children)))))
    ∧ (¬ (childlessIdsF t.children).Nodup →
        ∃ k, Resource.all_values t [] true
          = .error (.resourceExec ("Cannot flatten, duplicate .id found: " ++ k))) := by
  cases t with
  | mk i v a ch =>
    have hch' : ch = RForest.cons c0 f0 := hch
    subst hch'
    refine ⟨?_, ?_, ?_⟩
    · simp [Resource.all_values, RNode.children]
    · intro hnd
      have hnd' : (childlessIdsF (RForest.cons c0 f0)).Nodup := by
        simpa [RNode.children] using hnd
      have hok := flattenEntries_ok (allValuesForest (RForest.cons c0 f0)) [] (by
        simpa [leafIds_eq_childless] using hnd')
      simp [Resource.all_values, RNode.children, hok]
    · intro hnd
      have hnd' : ¬ (childlessIdsF (RForest.cons c0 f0)).Nodup := by
        simpa [RNode.children] using hnd
      obtain ⟨k, hk⟩ := flattenEntries_err (allValuesForest (RForest.cons c0 f0)) []
        (by simp) (by simpa [leafIds_eq_childless] using hnd')
      refine ⟨k, ?_⟩
      simp [Resource.all_values, RNode.children, hk]

/-- Tree with two *childless* descendants both named `x`, under different
parents (the spec's own example). -/
def c7tree : RNode Nat :=
  .mk "root" 0 []
    (.cons (.mk "p1" 1 [] (.cons (.mk "x" 2 [] .nil) .nil))
      (.cons (.mk "p2" 3 [] (.cons (.mk "x" 4 [] .nil) .nil)) .nil))

/-- C7 witness: on `c7tree`, `flatten=False` succeeds with the nested
mapping while the duplicate childless ids make `flatten=True` raise. -/
theorem c7_flatten_duplicates_witness :
    Resource.all_values c7tree [] false = .ok (.node (allValuesForest c7tree.children))
    ∧ ((childlessIdsF c7tree.children).Nodup →
        Resource.all_values c7tree [] true
          = .ok (.node (ofFlat (flatPairsEntries (allValuesForest c7tree.children)))))
    ∧ (¬ (childlessIdsF c7tree.children).Nodup →
        ∃ k, Resource.all_values c7tree [] true
          = .error (.resourceExec ("Cannot flatten, duplicate .id found: " ++ k))) :=
  c7_flatten_duplicates c7tree
    (.mk "p1" 1 [] (.cons (.mk "x" 2 [] .nil) .nil))
    (.cons (.mk "p2" 3 [] (.cons (.mk "x" 4 [] .nil) .nil)) .nil) (by rfl)

mutual
/-- Counting occurrences of an id in a tree. -/
def countIdN (x : String) : RNode V → Nat
  | .mk i _ _ ch => (if i = x then 1 else 0) + countIdF x ch

def countIdF (x : String) : RForest V → Nat
  | .nil => 0
  | .cons c rest => countIdN x c + countIdF x rest
end

/-- Tree in which two distinct nodes under different parents share the id
`x`, but one of them has a child: `root → {p1 → {x}, x → {c}}`. -/
def c7cextree : RNode Nat :=
  .mk "root" 0 []
    (.cons (.mk "p1" 1 [] (.cons (.mk "x" 2 [] .nil) .nil))
      (.cons (.mk "x" 3 [] (.cons (.mk "c" 4 [] .nil) .nil)) .nil))

/-- C7 (counterexample to the claim as stated): `c7cextree` has two distinct
nodes named `x` under different parents (sibling ids all unique, so the
tree is constructible), yet `all_values(flatten=True)` does *not* raise —
the duplicated node with children contributes a dict, which `_flatten`
recurses into without ever inserting the key `x` for it. -/
theorem c7_counterexample :
    countIdN "x" c7cextree = 2
    ∧ nodeHasDup c7cextree = false
    ∧ Resource.all_values c7cextree [] true
      = .ok (.node (ofFlat [("x", 2), ("c", 4)])) := by
  refine ⟨by rfl, by rfl, by rfl⟩

end AllValues

/-! ## `ResourceList` (`widgets/base/resource_list.py`) and `Replicator`
(`widgets/base/replicator.py`)

List elements are opaque resource objects carrying their id and their
`parent` back-reference (recorded as the owning list's id).  `remove`
(resource_list.py lines 290-297 and, with an identical body,
replicator.py lines 53-60) is `removed_elem = self.resources.pop(ix)`
followed by `del self._resource_dict[removed_elem.id]`.  The third
component of the result is the trace of lifecycle hooks the operation
invokes on the removed subtree; the body of `remove` invokes none — in
particular it never calls `stop()`, the teardown hook defined (as a no-op
to be overridden) at resource.py lines 185-190 and called from nowhere in
the repository. -/

structure RLItem (V : Type) where
  id : String
  parent : Option String
  payload : V

structure RLState (V : Type) where
  id : String
  label : String
  help : String
  value : Option V
  resources : List (RLItem V)
  resourceDict : List (String × RLItem V)
  resourceContainer : Option V

section ResourceListDefs

variable {V : Type}

/-- `ResourceList._attach_resource` (resource_list.py lines 55-70) folded
over a resource list (as `__init__` does): the type check is carried by
typing, a repeated id raises `WidgetConfigurationException`, otherwise the
resource is added to `_resource_dict` and its parent back-reference is set
to the list. -/
def attachResources (listId : String) :
    List (RLItem V) → List (String × RLItem V) → Except Err (List (String × RLItem V))
  | [], d => .ok d
  | r :: rest, d =>
    if (d.lookup r.id).isSome then
      .error (.widgetConfig ("Resource ids must be unique (repeated: " ++ r.id ++ ")"))
    else attachResources listId rest (d ++ [(r.id, { r with parent := some listId })])

/-- `ResourceList.remove` / `Replicator.remove`: pop the element at `ix`
(`none` models the `IndexError` of an invalid index), delete its dict key
(`none` models the `KeyError` of a missing key), and return the new state,
the popped element exactly as the code leaves it, and the (empty) trace of
lifecycle hooks invoked. -/
def RLState.remove (s : RLState V) (ix : Nat) : Option (RLState V × RLItem V × List String) :=
  match s.resources.get? ix with
  | none => none
  | some r =>
    if (s.resourceDict.lookup r.id).isSome then
      some ({ s with
          resources := s.resources.eraseIdx ix,
          resourceDict := s.resourceDict.eraseP (fun p => p.1 == r.id) },
        r, ([] : List String))
    else none

/-- C8 (amended): on a valid index, `remove` detaches the element — the
resource list loses position `ix` and the dict loses the element's key —
but invokes no lifecycle hook at all on the removed subtree: the teardown
hook `stop()` is never called, the hook trace is empty. -/
theorem c8_remove_no_teardown (s : RLState V) (ix : Nat) (r : RLItem V)
    (hget : s.resources.get? ix = some r)
    (hdict : (s.resourceDict.lookup r.id).isSome = true) :
    ∃ s', RLState.remove s ix = some (s', r, ([] : List String))
      ∧ s'.resources = s.resources.eraseIdx ix
      ∧ s'.resourceDict = s.resourceDict.eraseP (fun p => p.1 == r.id) := by
  refine ⟨{ s with
      resources := s.resources.eraseIdx ix,
      resourceDict := s.resourceDict.eraseP (fun p => p.1 == r.id) }, ?_, rfl, rfl⟩
  unfold RLState.remove
  rw [hget]
  simp [hdict]

/-- C9: `remove` only rewrites the `resources` sequence and the id-lookup
dict; the list's other fields are unchanged, and the removed element is
returned exactly as stored — in particular its parent back-reference still
points at the list instead of being reset. -/
theorem c9_remove_frame (s : RLState V) (ix : Nat) (r : RLItem V)
    (hget : s.resources.get? ix = some r)
    (hdict : (s.resourceDict.lookup r.id).isSome = true)
    (hpar : r.parent = some s.id) :
    ∃ s', RLState.remove s ix = some (s', r, ([] : List String))
      ∧ s'.id = s.id ∧ s'.label = s.label ∧ s'.help = s.help ∧ s'.value = s.value
      ∧ s'.resourceContainer = s.resourceContainer
      ∧ s'.resources = s.resources.eraseIdx ix
      ∧ s'.resourceDict = s.resourceDict.eraseP (fun p => p.1 == r.id)
      ∧ r.parent = some s.id := by
  refine ⟨{ s with
      resources := s.resources.eraseIdx ix,
      resourceDict := s.resourceDict.eraseP (fun p => p.1 == r.id) },
    ?_, rfl, rfl, rfl, rfl, rfl, rfl, rfl, hpar⟩
  unfold RLState.remove
  rw [hget]
  simp [hdict]

/-- Concrete two-element list state (elements attached: parent set to the
list's id). -/
def rlItem0 : RLItem Nat := ⟨"elem_0", some "list", 10⟩

def rlItem1 : RLItem Nat := ⟨"elem_1", some "list", 11⟩

def rlState : RLState Nat :=
  ⟨"list", "Label", "Help", none, [rlItem0, rlItem1],
    [("elem_0", rlItem0), ("elem_1", rlItem1)], none⟩

/-- C8 (counterexample to the claim as stated): removing index 0 from
`rlState` detaches `elem_0` while the trace of invoked lifecycle hooks is
empty — the removed subtree's teardown hook is *not* invoked before (nor
after) detaching. -/
theorem c8_counterexample :
    RLState.remove rlState 0
      = some (⟨"list", "Label", "Help", none, [rlItem1], [("elem_1", rlItem1)], none⟩,
        rlItem0, ([] : List String)) := by
  rfl

/-- C8 witness: the amended statement evaluated on `rlState` at index 1. -/
theorem c8_remove_no_teardown_witness :
    ∃ s', RLState.remove rlState 1 = some (s', rlItem1, ([] : List String))
      ∧ s'.resources = rlState.resources.eraseIdx 1
      ∧ s'.resourceDict = rlState.resourceDict.eraseP (fun p => p.1 == rlItem1.id) :=
  c8_remove_no_teardown rlState 1 rlItem1 (by rfl) (by rfl)

/-- C9 witness: the frame statement evaluated on `rlState` at index 0. -/
theorem c9_remove_frame_witness :
    ∃ s', RLState.remove rlState 0 = some (s', rlItem0, ([] : List String))
      ∧ s'.id = rlState.id ∧ s'.label = rlState.label ∧ s'.help = rlState.help
      ∧ s'.value = rlState.value
      ∧ s'.resourceContainer = rlState.resourceContainer
      ∧ s'.resources = rlState.resources.eraseIdx 0
      ∧ s'.resourceDict = rlState.resourceDict.eraseP (fun p => p.1 == rlItem0.id)
      ∧ rlItem0.parent = some rlState.id :=
  c9_remove_frame rlState 0 rlItem0 (by rfl) (by rfl) (by rfl)

end ResourceListDefs

/-! ## Aliasing discipline of `Resource.__init__`
(resource.py lines 37-126)

A small heap makes object identity observable: the store is a list of
cells addressed by index, `copy.deepcopy` of an address allocates a fresh
cell with the same content (contents are opaque, which suffices to observe
whether a later external write to the *original* address is visible
through the instance), and plain assignment stores the address itself.
The structural-validation side of `_attach_children` (id uniqueness) is
the subject of the tree model above; here children are opaque object
addresses and only the copy-versus-reference decision is modelled. -/

section Heap

variable {V : Type} [Inhabited V]

abbrev Store (V : Type) : Type := List V

def Store.length (st : Store V) : Nat := List.length st

def Store.read (st : Store V) (a : Nat) : Option V := List.get? st a

def Store.write (st : Store V) (a : Nat) (v : V) : Store V := List.set st a v

/-- `copy.deepcopy` of one object: a fresh cell with the same content. -/
def Store.copyCell (st : Store V) (a : Nat) : Store V × Nat :=
  (st ++ [List.getD st a default], Store.length st)

/-- `copy.deepcopy` of an optional attribute (`deepcopy(None)` is `None`). -/
def Store.copyOpt (st : Store V) : Option Nat → Store V × Option Nat
  | none => (st, none)
  | some a => ((st.copyCell a).1, some (st.copyCell a).2)

/-- `copy.deepcopy` of a list of objects: fresh cells, left to right. -/
def Store.copyCells (st : Store V) : List Nat → Store V × List Nat
  | [] => (st, [])
  | a :: rest =>
    let p := st.copyCell a
    let q := Store.copyCells p.1 rest
    (q.1, p.2 :: q.2)

/-- Class-level attribute defaults (`self.__class__.value` and friends),
as addresses of the class-owned default objects. -/
structure RClassAttrs where
  value : Option Nat
  label : Option Nat
  help : Option Nat
  children : List Nat

/-- The attribute addresses `__init__` leaves in the instance `__dict__`. -/
structure RInst where
  id : String
  value : Option Nat
  label : Option Nat
  help : Option Nat
  attrs : List (String × Nat)
  children : List Nat

/-- Lines 58-65: a provided `value` is assigned as is; otherwise
`deepcopy(self.__class__.value)`. -/
def initValue (cls : RClassAttrs) (st : Store V) : Option Nat → Store V × Option Nat
  | some va => (st, some va)
  | none => st.copyOpt cls.value

/-- Lines 67-81: a provided `label` is deep-copied; with none provided the
class default is deep-copied, and with no class default the label is the
fresh string `id.title()` (`mkTitle` models `str.title`). -/
def initLabel (cls : RClassAttrs) (mkTitle : String → V) (id : String) (st : Store V) :
    Option Nat → Store V × Option Nat
  | some la => ((st.copyCell la).1, some (st.copyCell la).2)
  | none =>
    match cls.label with
    | none => (st ++ [mkTitle id], some (Store.length st))
    | some a => ((st.copyCell a).1, some (st.copyCell a).2)

/-- Lines 83-88: a provided `help` is deep-copied, else the class default
is deep-copied. -/
def initHelp (cls : RClassAttrs) (st : Store V) : Option Nat → Store V × Option Nat
  | some h => ((st.copyCell h).1, some (st.copyCell h).2)
  | none => st.copyOpt cls.help

/-- Lines 90-94: every extra keyword argument is deep-copied into
`self.__dict__`. -/
def copyKwargs (st : Store V) : List (String × Nat) → Store V × List (String × Nat)
  | [] => (st, [])
  | (k, a) :: rest =>
    let p := st.copyCell a
    let q := copyKwargs p.1 rest
    (q.1, (k, p.2) :: q.2)

/-- `_attach_children` lines 110-120: a non-empty provided list is attached
as is (same objects); otherwise `deepcopy(self.__class__.children)`. -/
def initChildren (cls : RClassAttrs) (st : Store V) (children : List Nat) :
    Store V × List Nat :=
  if 0 < children.length then (st, children) else st.copyCells cls.children

/-- The successful path of `__init__`: the value / label / help / kwargs /
children assignments in source order, threading the store. -/
def resourceInitOk (cls : RClassAttrs) (mkTitle : String → V) (st : Store V) (id : String)
    (value : Option Nat) (children : List Nat) (label : Option Nat) (help : Option Nat)
    (kwargs : List (String × Nat)) : Store V × RInst :=
  let p1 := initValue cls st value
  let p2 := initLabel cls mkTitle id p1.1 label
  let p3 := initHelp cls p2.1 help
  let p4 := copyKwargs p3.1 kwargs
  let p5 := initChildren cls p4.1 children
  (p5.1, ⟨id, p1.2, p2.2, p3.2, p4.2, p5.2⟩)

/-- `Resource.__init__` (resource.py lines 37-97) plus the
copy-versus-reference part of `_attach_children`: empty-id check, then the
assignments. -/
def resourceInit (cls : RClassAttrs) (mkTitle : String → V) (st : Store V) (id : String)
    (value : Option Nat) (children : List Nat) (label : Option Nat) (help : Option Nat)
    (kwargs : List (String × Nat)) : Except Err (Store V × RInst) :=
  if id.length = 0 then .error (.resourceConfig "Must provide id for Resource")
  else .ok (resourceInitOk cls mkTitle st id value children label help kwargs)

/-- `get([], "value")` on the instance: dereference the object its `value`
attribute points at. -/
def RInst.getValue (inst : RInst) (st : Store V) : Option V :=
  inst.value.bind st.read

/-- Every address stored in the instance `__dict__`. -/
def RInst.addrs (inst : RInst) : List Nat :=
  inst.value.toList ++ inst.label.toList ++ inst.help.toList
    ++ inst.attrs.map Prod.snd ++ inst.children

/-- `st'` extends `st`: allocation only appends. -/
def StoreExt (st st' : Store V) : Prop := ∃ ext : List V, st' = st ++ ext

theorem storeExt_refl (st : Store V) : StoreExt st st := ⟨[], by simp⟩

theorem storeExt_trans {s1 s2 s3 : Store V} (h1 : StoreExt s1 s2) (h2 : StoreExt s2 s3) :
    StoreExt s1 s3 := by
  obtain ⟨e1, rfl⟩ := h1
  obtain ⟨e2, rfl⟩ := h2
  exact ⟨e1 ++ e2, by simp⟩

theorem storeExt_length {s1 s2 : Store V} (h : StoreExt s1 s2) :
    Store.length s1 ≤ Store.length s2 := by
  obtain ⟨e, rfl⟩ := h
  simp [Store.length]

theorem storeExt_read {s1 s2 : Store V} (h : StoreExt s1 s2) {a : Nat}
    (ha : a < Store.length s1) : Store.read s2 a = Store.read s1 a := by
  obtain ⟨e, rfl⟩ := h
  simp only [Store.read]
  exact List.get?_append ha

theorem copyCell_ext (st : Store V) (a : Nat) : StoreExt st (st.copyCell a).1 :=
  ⟨[List.getD st a default], rfl⟩

theorem copyOpt_ext (st : Store V) : ∀ o, StoreExt st (st.copyOpt o).1
  | none => storeExt_refl st
  | some a => copyCell_ext st a

theorem copyOpt_fresh (st : Store V) : ∀ o b, (st.copyOpt o).2 = some b →
    Store.length st ≤ b
  | none, b => by simp [Store.copyOpt]
  | some a, b => by
    simp only [Store.copyOpt, Store.copyCell, Option.some.injEq]
    intro h
    omega

theorem copyCells_ext (st : Store V) : ∀ as, StoreExt st (st.copyCells as).1
  | [] => storeExt_refl st
  | a :: rest =>
    storeExt_trans (copyCell_ext st a) (copyCells_ext (st.copyCell a).1 rest)

theorem copyCells_fresh : ∀ (as : List Nat) (st : Store V) (b : Nat),
    b ∈ (st.copyCells as).2 → Store.length st ≤ b
  | [], st, b => by simp [Store.copyCells]
  | a :: rest, st, b => by
    simp only [Store.copyCells, List.mem_cons]
    rintro (rfl | hb)
    · exact Nat.le_refl _
    · have h1 := copyCells_fresh rest (st.copyCell a).1 b hb
      have h2 : Store.length st ≤ Store.length (st.copyCell a).1 :=
        storeExt_length (copyCell_ext st a)
      omega

theorem copyKwargs_ext (st : Store V) : ∀ kw, StoreExt st (copyKwargs st kw).1
  | [] => storeExt_refl st
  | (k, a) :: rest =>
    storeExt_trans (copyCell_ext st a) (copyKwargs_ext (st.copyCell a).1 rest)

theorem copyKwargs_fresh : ∀ (kw : List (String × Nat)) (st : Store V) (p : String × Nat),
    p ∈ (copyKwargs st kw).2 → Store.length st ≤ p.2
  | [], st, p => by simp [copyKwargs]
  | (k, a) :: rest, st, p => by
    simp only [copyKwargs, List.mem_cons]
    rintro (rfl | hp)
    · exact Nat.le_refl _
    · have h1 := copyKwargs_fresh rest (st.copyCell a).1 p hp
      have h2 : Store.length st ≤ Store.length (st.copyCell a).1 :=
        storeExt_length (copyCell_ext st a)
      omega

theorem initValue_ext (cls : RClassAttrs) (st : Store V) :
    ∀ v, StoreExt st (initValue cls st v).1
  | some _ => storeExt_refl st
  | none => copyOpt_ext st cls.value

theorem initValue_fresh_none (cls : RClassAttrs) (st : Store V) (b : Nat)
    (h : (initValue cls st none).2 = some b) : Store.length st ≤ b :=
  copyOpt_fresh st cls.value b h

theorem initLabel_ext (cls : RClassAttrs) (mkTitle : String → V) (id : String)
    (st : Store V) : ∀ l, StoreExt st (initLabel cls mkTitle id st l).1
  | some la => copyCell_ext st la
  | none => by
    cases hcl : cls.label with
    | none => exact ⟨[mkTitle id], by simp [initLabel, hcl]⟩
    | some a =>
      simpa [initLabel, hcl] using copyCell_ext st a

theorem initLabel_fresh (cls : RClassAttrs) (mkTitle : String → V) (id : String)
    (st : Store V) : ∀ l b, (initLabel cls mkTitle id st l).2 = some b →
    Store.length st ≤ b
  | some la, b => by
    simp only [initLabel, Store.copyCell, Option.some.injEq]
    intro h
    omega
  | none, b => by
    cases hcl : cls.label with
    | none => simp only [initLabel, hcl, Option.some.injEq]; intro h; omega
    | some a =>
      simp only [initLabel, hcl, Store.copyCell, Option.some.injEq]
      intro h
      omega

theorem initHelp_ext (cls : RClassAttrs) (st : Store V) :
    ∀ h, StoreExt st (initHelp cls st h).1
  | some hh => copyCell_ext st hh
  | none => copyOpt_ext st cls.help

theorem initHelp_fresh (cls : RClassAttrs) (st : Store V) :
    ∀ h b, (initHelp cls st h).2 = some b → Store.length st ≤ b
  | some hh, b => by
    simp only [initHelp, Store.copyCell, Option.some.injEq]
    intro h
    omega
  | none, b => copyOpt_fresh st cls.help b

theorem read_write_eq : ∀ (st : Store V) (a : Nat) (w : V),
    a < Store.length st → Store.read (st.write a w) a = some w
  | [], a, w => by intro h; simp [Store.length] at h
  | x :: rest, 0, w => by intro _; rfl
  | x :: rest, a + 1, w => by
    intro h
    simpa [Store.read, Store.write] using
      read_write_eq rest a w (by simpa [Store.length] using h)

theorem read_write_ne : ∀ (st : Store V) (a b : Nat) (w : V),
    a ≠ b → Store.read (st.write a w) b = Store.read st b
  | [], a, b, w => by intro _; simp [Store.read, Store.write]
  | x :: rest, 0, 0, w => by intro h; exact absurd rfl h
  | x :: rest, 0, b + 1, w => by intro _; rfl
  | x :: rest, a + 1, 0, w => by intro _; rfl
  | x :: rest, a + 1, b + 1, w => by
    intro h
    simpa [Store.read, Store.write] using
      read_write_ne rest a b w (fun hc => h (by rw [hc]))

theorem initChildren_cons (cls : RClassAttrs) (st : Store V) (c0 : Nat) (cs : List Nat) :
    initChildren cls st (c0 :: cs) = (st, c0 :: cs) := by
  simp [initChildren]

/-- C10 (amended): `Resource.__init__` deep-copies defensively in every
case except *two*.  First conjunct (exception one): a constructor-supplied
`value` is stored by reference — with no children supplied, every *other*
address the instance holds is a freshly allocated copy, and a subsequent
external write to the supplied object is visible through
`get([], "value")`.  Second conjunct: with no supplied `value` and no
supplied children, every address the instance holds (class-default value,
label, help, class-default children, and all extra keyword-argument
values) is freshly allocated, so external writes to any pre-existing
object are invisible through `get([], "value")`.  Third conjunct
(exception two, resource.py lines 110-114): a supplied *non-empty*
children list is attached by reference — the instance stores exactly the
same child objects, not copies. -/
theorem c10_init_copy_discipline (cls : RClassAttrs) (mkTitle : String → V)
    (st : Store V) (id : String) (hid : ¬ id.length = 0) :
    (∀ (va : Nat) (la ha : Option Nat) (kwargs : List (String × Nat)),
      va < Store.length st →
      ∃ st' inst, resourceInit cls mkTitle st id (some va) [] la ha kwargs = .ok (st', inst)
        ∧ inst.value = some va
        ∧ (∀ b ∈ inst.addrs, b ≠ va → Store.length st ≤ b)
        ∧ (∀ w, inst.getValue (st'.write va w) = some w))
    ∧ (∀ (la ha : Option Nat) (kwargs : List (String × Nat)),
      ∃ st' inst, resourceInit cls mkTitle st id none [] la ha kwargs = .ok (st', inst)
        ∧ (∀ b ∈ inst.addrs, Store.length st ≤ b)
        ∧ (∀ (a : Nat) (w : V), a < Store.length st →
            inst.getValue (st'.write a w) = inst.getValue st'))
    ∧ (∀ (va la ha : Option Nat) (c0 : Nat) (cs : List Nat) (kwargs : List (String × Nat)),
      ∃ st' inst, resourceInit cls mkTitle st id va (c0 :: cs) la ha kwargs = .ok (st', inst)
        ∧ inst.children = c0 :: cs) := by
  refine ⟨?_, ?_, ?_⟩
  · intro va la ha kwargs hva
    refine ⟨(resourceInitOk cls mkTitle st id (some va) [] la ha kwargs).1,
      (resourceInitOk cls mkTitle st id (some va) [] la ha kwargs).2,
      by simp [resourceInit, hid], rfl, ?_, ?_⟩
    · intro b hb hbva
      have h1 : initValue cls st (some va) = (st, some va) := rfl
      simp only [resourceInitOk, RInst.addrs, h1, initChildren, List.length_nil,
        Nat.lt_irrefl, if_false, List.mem_append, Option.toList_some,
        List.mem_singleton, Option.mem_toList, List.mem_map] at hb
      have e2 := initLabel_ext cls mkTitle id st la
      have e3 := initHelp_ext cls (initLabel cls mkTitle id st la).1 ha
      have e4 := copyKwargs_ext (initHelp cls (initLabel cls mkTitle id st la).1 ha).1 kwargs
      rcases hb with ((((hb | hb) | hb) | hb) | hb)
      · exact absurd hb hbva
      · simp only [Option.mem_def] at hb
        exact initLabel_fresh cls mkTitle id st la b hb
      · simp only [Option.mem_def] at hb
        exact le_trans (storeExt_length e2)
          (initHelp_fresh cls (initLabel cls mkTitle id st la).1 ha b hb)
      · obtain ⟨p, hp, rfl⟩ := hb
        exact le_trans (le_trans (storeExt_length e2) (storeExt_length e3))
          (copyKwargs_fresh kwargs (initHelp cls (initLabel cls mkTitle id st la).1 ha).1 p hp)
      · exact le_trans (le_trans (le_trans (storeExt_length e2) (storeExt_length e3))
          (storeExt_length e4))
          (copyCells_fresh cls.children
            (copyKwargs (initHelp cls (initLabel cls mkTitle id st la).1 ha).1 kwargs).1 b hb)
    · intro w
      have hlen : Store.length st
          ≤ Store.length (resourceInitOk cls mkTitle st id (some va) [] la ha kwargs).1 := by
        refine storeExt_length (storeExt_trans (initLabel_ext cls mkTitle id st la)
          (storeExt_trans (initHelp_ext cls _ ha)
            (storeExt_trans (copyKwargs_ext _ kwargs) ?_)))
        simpa [resourceInitOk, initChildren] using copyCells_ext _ cls.children
      simp only [RInst.getValue, Option.bind_eq_bind, Option.some_bind]
      exact read_write_eq _ va w (by omega)
  · intro la ha kwargs
    refine ⟨(resourceInitOk cls mkTitle st id none [] la ha kwargs).1,
      (resourceInitOk cls mkTitle st id none [] la ha kwargs).2,
      by simp [resourceInit, hid], ?_, ?_⟩
    · intro b hb
      simp only [resourceInitOk, RInst.addrs, initChildren, List.length_nil,
        Nat.lt_irrefl, if_false, List.mem_append, Option.mem_toList,
        List.mem_map] at hb
      have e1 := initValue_ext cls st (none : Option Nat)
      have e2 := initLabel_ext cls mkTitle id (initValue cls st none).1 la
      have e3 := initHelp_ext cls (initLabel cls mkTitle id (initValue cls st none).1 la).1 ha
      have e4 := copyKwargs_ext
        (initHelp cls (initLabel cls mkTitle id (initValue cls st none).1 la).1 ha).1 kwargs
      rcases hb with ((((hb | hb) | hb) | hb) | hb)
      · simp only [Option.mem_def] at hb
        exact initValue_fresh_none cls st b hb
      · simp only [Option.mem_def] at hb
        exact le_trans (storeExt_length e1)
          (initLabel_fresh cls mkTitle id (initValue cls st none).1 la b hb)
      · simp only [Option.mem_def] at hb
        exact le_trans (le_trans (storeExt_length e1) (storeExt_length e2))
          (initHelp_fresh cls (initLabel cls mkTitle id (initValue cls st none).1 la).1 ha b hb)
      · obtain ⟨p, hp, rfl⟩ := hb
        exact le_trans (le_trans (le_trans (storeExt_length e1) (storeExt_length e2))
          (storeExt_length e3))
          (copyKwargs_fresh kwargs _ p hp)
      · exact le_trans (le_trans (le_trans (le_trans (storeExt_length e1)
          (storeExt_length e2)) (storeExt_length e3)) (storeExt_length e4))
          (copyCells_fresh cls.children _ b hb)
    · intro a w ha'
      cases hval : (resourceInitOk cls mkTitle st id none [] la ha kwargs).2.value with
      | none => simp [RInst.getValue, hval]
      | some b =>
        have hfresh : Store.length st ≤ b := by
          have : (initValue cls st none).2 = some b := hval
          exact initValue_fresh_none cls st b this
        have hab : a ≠ b := by omega
        simp only [RInst.getValue, hval, Option.bind_eq_bind, Option.some_bind]
        exact read_write_ne _ a b w hab
  · intro va la ha c0 cs kwargs
    refine ⟨(resourceInitOk cls mkTitle st id va (c0 :: cs) la ha kwargs).1,
      (resourceInitOk cls mkTitle st id va (c0 :: cs) la ha kwargs).2,
      by simp [resourceInit, hid], ?_⟩
    show (resourceInitOk cls mkTitle st id va (c0 :: cs) la ha kwargs).2.children = c0 :: cs
    simp [resourceInitOk, initChildren_cons]

/-- C10 (counterexample to the claim as stated): with *no* `value`
argument at all, construction with a supplied non-empty children list
stores that list by reference — the instance's children slot holds the
pre-existing address `3` of the caller's object, not a fresh copy — so the
supplied `value` is not the only by-reference case. -/
theorem c10_counterexample :
    resourceInit ⟨some 0, some 1, some 2, [3]⟩ (fun s => s)
        (["v0", "l0", "h0", "c0"] : Store String) "res" none [3] none none []
      = .ok ((["v0", "l0", "h0", "c0", "v0", "l0", "h0"] : Store String),
          ⟨"res", some 4, some 5, some 6, [], [3]⟩)
    ∧ 3 < Store.length (["v0", "l0", "h0", "c0"] : Store String) :=
  ⟨rfl, by decide⟩

/-- C10 witness: a concrete store and class table; the instantiated
conjunction of all three scenarios. -/
theorem c10_init_copy_discipline_witness :
    (∀ (va : Nat) (la ha : Option Nat) (kwargs : List (String × Nat)),
      va < Store.length (["v0", "l0", "h0", "c0"] : Store String) →
      ∃ st' inst, resourceInit ⟨some 0, some 1, some 2, [3]⟩ (fun s => s)
          (["v0", "l0", "h0", "c0"] : Store String) "res" (some va) [] la ha kwargs
          = .ok (st', inst)
        ∧ inst.value = some va
        ∧ (∀ b ∈ inst.addrs, b ≠ va → Store.length (["v0", "l0", "h0", "c0"] : Store String) ≤ b)
        ∧ (∀ w, inst.getValue (st'.write va w) = some w))
    ∧ (∀ (la ha : Option Nat) (kwargs : List (String × Nat)),
      ∃ st' inst, resourceInit ⟨some 0, some 1, some 2, [3]⟩ (fun s => s)
          (["v0", "l0", "h0", "c0"] : Store String) "res" none [] la ha kwargs
          = .ok (st', inst)
        ∧ (∀ b ∈ inst.addrs, Store.length (["v0", "l0", "h0", "c0"] : Store String) ≤ b)
        ∧ (∀ (a : Nat) (w : String), a < Store.length (["v0", "l0", "h0", "c0"] : Store String) →
            inst.getValue (st'.write a w) = inst.getValue st'))
    ∧ (∀ (va la ha : Option Nat) (c0 : Nat) (cs : List Nat) (kwargs : List (String × Nat)),
      ∃ st' inst, resourceInit ⟨some 0, some 1, some 2, [3]⟩ (fun s => s)
          (["v0", "l0", "h0", "c0"] : Store String) "res" va (c0 :: cs) la ha kwargs
          = .ok (st', inst)
        ∧ inst.children = c0 :: cs) :=
  c10_init_copy_discipline ⟨some 0, some 1, some 2, [3]⟩ (fun s => s)
    (["v0", "l0", "h0", "c0"] : Store String) "res" (by decide)

end Heap

/-! ## Source compiler: the dependency gather
(`Resource.source_all` and `Resource._recursive_source`,
resource.py lines 304-368)

The gather walks a live node: if the node's concrete class is "custom"
(its `__module__` does not start with `"widget"`), the class is inserted
into the ordered `gathered_source` dict — or, when already present,
deleted and re-inserted at the end — and the walk recurses into a
default-constructed instance of the parent class (`self._parent_class()()`,
whose children/options are the class-level defaults); in every case the
walk then recurses into the node's children and its Resource-valued
`options`.  `source_all` emits the collected definitions in *reverse*
insertion order.  The dict is modelled by its ordered key list (each key
maps to the class's `source_self()` text, one entry per class name).
Python's recursion is unbounded, so the embedding is fuel-indexed; `none`
covers fuel exhaustion and the crashes the original would hit (a class
missing from the table, or a custom class with no parent class to
instantiate). -/

inductive GNode where
  | mk (cls : String) (children : List GNode) (options : List GNode)

def GNode.cls : GNode → String
  | .mk c _ _ => c

def GNode.children : GNode → List GNode
  | .mk _ ch _ => ch

def GNode.options : GNode → List GNode
  | .mk _ _ os => os

/-- What the walk needs of a Python class object: `__module__`, the next
class of the MRO (`_parent_class`), and the class-level default children
and options its zero-argument instantiation carries. -/
structure ClassInfo where
  mod : String
  parent : Option String
  defChildren : List GNode
  defOptions : List GNode

def Table : Type := String → Option ClassInfo

/-- Python's `str.startswith`, by code points (the library
`String.startsWith` does not reduce in the kernel). -/
def charsBegin : List Char → List Char → Bool
  | [], _ => true
  | _ :: _, [] => false
  | pc :: ps, sc :: ss => pc == sc && charsBegin ps ss

def beginsWith (s p : String) : Bool := charsBegin p.data s.data

/-- "Custom" class: not defined in the widgets library —
`not self.__class__.__module__.startswith('widget')` (line 325). -/
def isCustomB (t : Table) (c : String) : Bool :=
  match t c with
  | some ci => !(beginsWith ci.mod "widget")
  | none => false

def parentOf (t : Table) (c : String) : Option String :=
  match t c with
  | some ci => ci.parent
  | none => none

/-- Lines 327-340: re-encountering a collected class deletes and re-inserts
its dict entry (bump to the end); a new class is appended. -/
def moveOrInsert (c : String) (g : List String) : List String :=
  if c ∈ g then g.erase c ++ [c] else g ++ [c]

/-- Thread the gathered dict through a list of nodes, in order. -/
def chainRec (f : GNode → List String → Option (List String)) :
    List GNode → List String → Option (List String)
  | [], g => some g
  | n :: ns, g =>
    match f n g with
    | none => none
    | some g' => chainRec f ns g'

/-- The self-and-parent stage of `_recursive_source` (lines 324-346): for
a custom class, insert/bump it and recurse (via `f`) into a
default-constructed instance of the parent class; for a library class,
leave the dict unchanged. -/
def stepSelf (t : Table) (f : GNode → List String → Option (List String))
    (n : GNode) (g : List String) : Option (List String) :=
  match t n.cls with
  | none => none
  | some ci =>
    if beginsWith ci.mod "widget" then some g
    else
      match ci.parent with
      | none => none
      | some p =>
        match t p with
        | none => none
        | some pci => f (GNode.mk p pci.defChildren pci.defOptions) (moveOrInsert n.cls g)

/-- One unfolding of `Resource._recursive_source` (lines 318-368), with
`f` standing for the recursive occurrence: the self/parent stage, then the
children (lines 348-354), then the Resource-valued options
(lines 356-365). -/
def recSourceF (t : Table) (f : GNode → List String → Option (List String))
    (n : GNode) (g : List String) : Option (List String) :=
  match stepSelf t f n g with
  | none => none
  | some g1 =>
    match chainRec f n.children g1 with
    | none => none
    | some g2 => chainRec f n.options g2

/-- `Resource._recursive_source`, fuel-indexed, built over `Nat.rec` so
that concrete runs reduce in the kernel. -/
def recSource (t : Table) (fuel : Nat) : GNode → List String → Option (List String) :=
  Nat.rec (motive := fun _ => GNode → List String → Option (List String))
    (fun _ _ => none) (fun _ ih => recSourceF t ih) fuel

theorem recSource_zero (t : Table) (n : GNode) (g : List String) :
    recSource t 0 n g = none := rfl

theorem recSource_succ (t : Table) (fuel : Nat) :
    recSource t (fuel + 1) = recSourceF t (recSource t fuel) := rfl

/-- `Resource.source_all` (lines 304-316): the order in which the gathered
class definitions appear in the emitted program text. -/
def sourceAllOrder (t : Table) (fuel : Nat) (root : GNode) : Option (List String) :=
  (recSource t fuel root []).map List.reverse

/-- `a` occurs strictly before `b` in `l`. -/
def Before (a b : String) (l : List String) : Prop :=
  ∃ l1 l2 l3, l = l1 ++ ((a :: l2) ++ (b :: l3))

/-- The dependency-order invariant for one collected class: its parent
class, when custom, is collected *after* it (so that, reversed, the parent
is emitted first). -/
def GoodIn (t : Table) (c : String) (l : List String) : Prop :=
  ∀ p, parentOf t c = some p → isCustomB t p = true → Before c p l

theorem before_mem_left {a b : String} {l : List String} (h : Before a b l) : a ∈ l := by
  obtain ⟨l1, l2, l3, rfl⟩ := h
  simp

theorem before_append_right {a b x : String} {l : List String} (h : Before a b l) :
    Before a b (l ++ [x]) := by
  obtain ⟨l1, l2, l3, rfl⟩ := h
  exact ⟨l1, l2, l3 ++ [x], by simp⟩

theorem before_snoc_of_mem {a x : String} {l : List String} (h : a ∈ l) :
    Before a x (l ++ [x]) := by
  obtain ⟨s, u, rfl⟩ := List.append_of_mem h
  exact ⟨s, u, [], by simp⟩

theorem before_erase {a b x : String} {l : List String} (h : Before a b l)
    (hax : a ≠ x) (hbx : b ≠ x) : Before a b (l.erase x) := by
  obtain ⟨l1, l2, l3, rfl⟩ := h
  by_cases hx1 : x ∈ l1
  · rw [List.erase_append_left _ hx1]
    exact ⟨l1.erase x, l2, l3, rfl⟩
  · rw [List.erase_append_right _ hx1]
    by_cases hx2 : x ∈ a :: l2
    · rw [List.erase_append_left _ hx2]
      rw [List.erase_cons_tail (by simpa using hax)]
      exact ⟨l1, l2.erase x, l3, rfl⟩
    · rw [List.erase_append_right _ hx2]
      rw [List.erase_cons_tail (by simpa using hbx)]
      exact ⟨l1, l2, l3.erase x, rfl⟩

theorem mem_moveOrInsert_self (x : String) (l : List String) : x ∈ moveOrInsert x l := by
  unfold moveOrInsert
  split <;> simp

theorem mem_moveOrInsert_of_mem {d : String} {l : List String} (x : String) (h : d ∈ l) :
    d ∈ moveOrInsert x l := by
  unfold moveOrInsert
  split
  · by_cases hdx : d = x
    · simp [hdx]
    · simp [(List.mem_erase_of_ne hdx).mpr h]
  · simp [h]

theorem mem_of_mem_moveOrInsert {d x : String} {l : List String}
    (h : d ∈ moveOrInsert x l) : d ∈ l ∨ d = x := by
  unfold moveOrInsert at h
  by_cases hmem : x ∈ l
  · rw [if_pos hmem] at h
    rcases List.mem_append.mp h with h | h
    · exact Or.inl (List.mem_of_mem_erase h)
    · exact Or.inr (by simpa using h)
  · rw [if_neg hmem] at h
    rcases List.mem_append.mp h with h | h
    · exact Or.inl h
    · exact Or.inr (by simpa using h)

theorem before_moveOrInsert {a b x : String} {l : List String}
    (hax : a ≠ x) (hbx : b ≠ x) (h : Before a b l) : Before a b (moveOrInsert x l) := by
  unfold moveOrInsert
  split
  · exact before_append_right (before_erase h hax hbx)
  · exact before_append_right h

theorem before_moveOrInsert_self {a x : String} {l : List String}
    (ha : a ∈ l) (hax : a ≠ x) : Before a x (moveOrInsert x l) := by
  unfold moveOrInsert
  split
  · exact before_snoc_of_mem ((List.mem_erase_of_ne hax).mpr ha)
  · exact before_snoc_of_mem ha

theorem nodup_moveOrInsert {x : String} {l : List String} (h : l.Nodup) :
    (moveOrInsert x l).Nodup := by
  unfold moveOrInsert
  split
  · rw [List.nodup_append]
    refine ⟨h.erase x, List.nodup_singleton x, ?_⟩
    intro a ha hax
    rw [List.mem_singleton] at hax
    subst hax
    exact ((List.Nodup.mem_erase_iff h).mp ha).1 rfl
  · rw [List.nodup_append]
    refine ⟨h, List.nodup_singleton x, ?_⟩
    intro a ha hax
    rw [List.mem_singleton] at hax
    subst hax
    rename_i hmem
    exact hmem ha

theorem before_reverse {a b : String} {l : List String} (h : Before a b l) :
    Before b a l.reverse := by
  obtain ⟨l1, l2, l3, rfl⟩ := h
  refine ⟨l3.reverse, l2.reverse, l1.reverse, ?_⟩
  simp [List.reverse_append]

theorem goodIn_moveOrInsert {t : Table} {d x : String} {l : List String}
    (hne : d ≠ x) (hd : d ∈ l) (hg : GoodIn t d l) : GoodIn t d (moveOrInsert x l) := by
  intro p hp hc
  by_cases hpx : p = x
  · subst hpx
    exact before_moveOrInsert_self hd hne
  · exact before_moveOrInsert hne hpx (hg p hp hc)

theorem isCustomB_elim {t : Table} {c : String} (h : isCustomB t c = true) :
    ∃ ci, t c = some ci ∧ beginsWith ci.mod "widget" = false := by
  unfold isCustomB at h
  cases ht : t c with
  | none => rw [ht] at h; cases h
  | some ci =>
    rw [ht] at h
    exact ⟨ci, rfl, by simpa using h⟩

/-- A custom class whose MRO-parent is itself makes `_recursive_source`
diverge (the walk re-instantiates the same class forever): every fuel
bound is exhausted. -/
theorem recSource_self_parent (t : Table) : ∀ (fuel : Nat) (n : GNode) (g : List String),
    isCustomB t n.cls = true → parentOf t n.cls = some n.cls →
    recSource t fuel n g = none := by
  intro fuel
  induction fuel with
  | zero => intro n g _ _; rfl
  | succ fuel ih =>
    intro n g hcust hpar
    obtain ⟨ci, ht, hbw⟩ := isCustomB_elim hcust
    have hp : ci.parent = some n.cls := by
      unfold parentOf at hpar
      rw [ht] at hpar
      exact hpar
    have hstep : stepSelf t (recSource t fuel) n g = none := by
      unfold stepSelf
      simp only [ht, hbw, Bool.false_eq_true, if_false, hp]
      exact ih (GNode.mk n.cls ci.defChildren ci.defOptions) (moveOrInsert n.cls g)
        (by simpa [GNode.cls] using hcust) (by simpa [GNode.cls] using hpar)
    rw [recSource_succ]
    unfold recSourceF
    rw [hstep]

/-- The induction core for the dependency gather.  For any successful run
of `_recursive_source`:
(A) collected classes are never dropped;
(B) a collected class whose custom parent is already collected later than
it keeps that property;
(C) a run on a node of a custom class leaves that class collected with its
custom parent collected later;
(D) any class badly ordered after the run was already badly ordered before
it (so a run from the empty dict leaves everything well ordered);
(E) the key list stays duplicate-free;
(F) a run on a node of custom class `x` repairs the ordering of every
already-collected class whose parent is `x` (the move-to-end rule). -/
theorem recSource_master (t : Table) : ∀ (fuel : Nat) (n : GNode) (g g' : List String),
    recSource t fuel n g = some g' →
    ((∀ d, d ∈ g → d ∈ g')
      ∧ (∀ d, d ∈ g → GoodIn t d g → GoodIn t d g')
      ∧ (isCustomB t n.cls = true → n.cls ∈ g' ∧ GoodIn t n.cls g')
      ∧ (∀ d, d ∈ g' → GoodIn t d g' ∨ (d ∈ g ∧ ¬ GoodIn t d g))
      ∧ (g.Nodup → g'.Nodup)
      ∧ (isCustomB t n.cls = true →
          ∀ d, d ∈ g → parentOf t d = some n.cls → GoodIn t d g')) := by
  intro fuel
  induction fuel with
  | zero =>
    intro n g g' h
    rw [recSource_zero] at h
    cases h
  | succ fuel ih =>
    have chainL : ∀ (ns : List GNode) (g g' : List String),
        chainRec (recSource t fuel) ns g = some g' →
        ((∀ d, d ∈ g → d ∈ g')
          ∧ (∀ d, d ∈ g → GoodIn t d g → GoodIn t d g')
          ∧ (∀ d, d ∈ g' → GoodIn t d g' ∨ (d ∈ g ∧ ¬ GoodIn t d g))
          ∧ (g.Nodup → g'.Nodup)) := by
      intro ns
      induction ns with
      | nil =>
        intro g g' h
        simp only [chainRec, Option.some.injEq] at h
        subst h
        refine ⟨fun d hd => hd, fun d _ hg => hg, fun d hd => ?_, fun hnd => hnd⟩
        exact (Classical.em _).imp id (fun hb => ⟨hd, hb⟩)
      | cons m ms ihc =>
        intro g g' h
        simp only [chainRec] at h
        cases hm : recSource t fuel m g with
        | none => rw [hm] at h; cases h
        | some g1 =>
          rw [hm] at h
          obtain ⟨hA, hB, _, hD, hE, _⟩ := ih m g g1 hm
          obtain ⟨cA, cB, cD, cE⟩ := ihc g1 g' h
          refine ⟨?_, ?_, ?_, ?_⟩
          · exact fun d hd => cA d (hA d hd)
          · exact fun d hd hg => cB d (hA d hd) (hB d hd hg)
          · intro d hd
            rcases cD d hd with hgood | ⟨hd1, hbad1⟩
            · exact Or.inl hgood
            · rcases hD d hd1 with hgood1 | ⟨hdg, hbadg⟩
              · exact absurd hgood1 hbad1
              · exact Or.inr ⟨hdg, hbadg⟩
          · exact fun hnd => cE (hE hnd)
    intro n g g' h
    have horig := h
    rw [recSource_succ] at h
    unfold recSourceF at h
    cases hstep : stepSelf t (recSource t fuel) n g with
    | none => rw [hstep] at h; cases h
    | some g1 =>
      rw [hstep] at h
      dsimp only at h
      cases hch : chainRec (recSource t fuel) n.children g1 with
      | none => rw [hch] at h; cases h
      | some g2 =>
        rw [hch] at h
        dsimp only at h
        obtain ⟨chA, chB, chD, chE⟩ := chainL n.children g1 g2 hch
        obtain ⟨opA, opB, opD, opE⟩ := chainL n.options g2 g' h
        by_cases hcust : isCustomB t n.cls = true
        · -- custom class: the self stage moved/inserted `n.cls` and ran the
          -- parent instance
          obtain ⟨ci, ht, hbw⟩ := isCustomB_elim hcust
          unfold stepSelf at hstep
          rw [ht] at hstep
          dsimp only at hstep
          rw [if_neg (by simp [hbw])] at hstep
          cases hcp : ci.parent with
          | none => rw [hcp] at hstep; cases hstep
          | some p =>
            rw [hcp] at hstep
            dsimp only at hstep
            cases htp : t p with
            | none => rw [htp] at hstep; cases hstep
            | some pci =>
              rw [htp] at hstep
              dsimp only at hstep
              have hparentOf : parentOf t n.cls = some p := by
                unfold parentOf
                rw [ht]
                dsimp only
                exact hcp
              obtain ⟨pA, pB, _, pD, pE, pF⟩ :=
                ih (GNode.mk p pci.defChildren pci.defOptions) (moveOrInsert n.cls g) g1 hstep
              -- (C): n.cls collected, and well ordered w.r.t. its parent
              have hmemg' : n.cls ∈ g' :=
                opA _ (chA _ (pA _ (mem_moveOrInsert_self n.cls g)))
              have hCgood : GoodIn t n.cls g' := by
                by_cases hpcust : isCustomB t p = true
                · have hg1 : GoodIn t n.cls g1 := by
                    refine pF (by simpa [GNode.cls] using hpcust) n.cls
                      (mem_moveOrInsert_self n.cls g) ?_
                    simpa [GNode.cls] using hparentOf
                  exact opB _ (chA _ (pA _ (mem_moveOrInsert_self n.cls g)))
                    (chB _ (pA _ (mem_moveOrInsert_self n.cls g)) hg1)
                · intro p' hp' hcustp'
                  rw [hparentOf] at hp'
                  cases hp'
                  exact absurd hcustp' hpcust
              refine ⟨?_, ?_, fun _ => ⟨hmemg', hCgood⟩, ?_, ?_, ?_⟩
              · -- (A)
                exact fun d hd => opA d (chA d (pA d (mem_moveOrInsert_of_mem n.cls hd)))
              · -- (B)
                intro d hd hgood
                by_cases hdc : d = n.cls
                · subst hdc
                  exact hCgood
                · have hdM := mem_moveOrInsert_of_mem n.cls hd
                  exact opB d (chA d (pA d hdM))
                    (chB d (pA d hdM) (pB d hdM (goodIn_moveOrInsert hdc hd hgood)))
              · -- (D)
                intro d hd
                by_cases hdc : d = n.cls
                · subst hdc
                  exact Or.inl hCgood
                · rcases opD d hd with hgood | ⟨hd2, hbad2⟩
                  · exact Or.inl hgood
                  · rcases chD d hd2 with hgood2 | ⟨hd1, hbad1⟩
                    · exact absurd hgood2 hbad2
                    · rcases pD d hd1 with hgood1 | ⟨hdM, hbadM⟩
                      · exact absurd hgood1 hbad1
                      · rcases mem_of_mem_moveOrInsert hdM with hdg | hdx
                        · exact Or.inr ⟨hdg, fun hg =>
                            hbadM (goodIn_moveOrInsert hdc hdg hg)⟩
                        · exact absurd hdx hdc
              · -- (E)
                exact fun hnd => opE (chE (pE (nodup_moveOrInsert hnd)))
              · -- (F)
                intro _ d hd hpard
                by_cases hdc : d = n.cls
                · subst hdc
                  rw [recSource_self_parent t (fuel + 1) n g hcust hpard] at horig
                  cases horig
                · have hdM := mem_moveOrInsert_of_mem n.cls hd
                  have hgoodM : GoodIn t d (moveOrInsert n.cls g) := by
                    intro p' hp' hcustp'
                    rw [hpard] at hp'
                    cases hp'
                    exact before_moveOrInsert_self hd hdc
                  exact opB d (chA d (pA d hdM)) (chB d (pA d hdM) (pB d hdM hgoodM))
        · -- library class: the self stage leaves the dict unchanged
          have hg1 : g1 = g := by
            unfold stepSelf at hstep
            cases ht : t n.cls with
            | none => rw [ht] at hstep; cases hstep
            | some ci =>
              rw [ht] at hstep
              dsimp only at hstep
              have hbw : beginsWith ci.mod "widget" = true := by
                by_contra hbw
                apply hcust
                simp only [isCustomB, ht, Bool.not_eq_true']
                simpa using hbw
              rw [if_pos (by simp [hbw])] at hstep
              exact (Option.some.injEq _ _ ▸ hstep).symm
          subst hg1
          refine ⟨?_, ?_, fun hcc => absurd hcc hcust, ?_, ?_, fun hcc => absurd hcc hcust⟩
          · exact fun d hd => opA d (chA d hd)
          · exact fun d hd hg => opB d (chA d hd) (chB d hd hg)
          · intro d hd
            rcases opD d hd with hgood | ⟨hd2, hbad2⟩
            · exact Or.inl hgood
            · rcases chD d hd2 with hgood2 | ⟨hdg, hbadg⟩
              · exact absurd hgood2 hbad2
              · exact Or.inr ⟨hdg, hbadg⟩
          · exact fun hnd => opE (chE hnd)

/-- C1: on any successful run of the dependency gather from the empty dict
(`source_all`), the emitted order — the reverse of the gathered insertion
order — lists each collected custom class exactly once, and every
collected class whose MRO-parent is itself a custom class has that parent
*earlier* in the emitted order.  In particular, for a root whose custom
class `Sub` inherits from a custom class `Base` that another node in the
tree also uses directly, the emission contains exactly one definition of
`Base`, placed before the definition of `Sub` (and of every other
collected subtype of `Base`): re-encountering a collected class bumps it
to the end of the insertion order, so supertypes precede subtypes after
the final reversal. -/
theorem c1_gather_unique_supertypes_first (t : Table) (fuel : Nat) (root : GNode)
    (g : List String) (h : recSource t fuel root [] = some g) :
    sourceAllOrder t fuel root = some g.reverse
    ∧ g.reverse.Nodup
    ∧ ∀ c ∈ g.reverse, ∀ p, parentOf t c = some p → isCustomB t p = true →
        Before p c g.reverse := by
  obtain ⟨_, _, _, hD, hE, _⟩ := recSource_master t fuel root [] g h
  refine ⟨by simp [sourceAllOrder, h], by simpa using hE List.nodup_nil, ?_⟩
  intro c hc p hp hcust
  have hcg : c ∈ g := by simpa using hc
  rcases hD c hcg with hgood | ⟨hmem, _⟩
  · exact before_reverse (hgood p hp hcust)
  · simp at hmem

/-- Class table for the spec's scenario: custom `Sub` inherits from custom
`Base`, which is `Resource`-based; `Resource` is a library class. -/
def c1table : Table := fun s =>
  if s = "Sub" then some ⟨"__main__", some "Base", [], []⟩
  else if s = "Base" then some ⟨"__main__", some "Resource", [], []⟩
  else if s = "Resource" then some ⟨"widgets.base.resource", none, [], []⟩
  else none

/-- A `Sub` root with a child that uses `Base` directly. -/
def c1root : GNode := .mk "Sub" [GNode.mk "Base" [] []] []

/-- C1 witness: the gather on `c1root` collects `["Sub", "Base"]`, so the
emission order is `["Base", "Sub"]` — one `Base`, before `Sub`. -/
theorem c1_gather_unique_supertypes_first_witness :
    sourceAllOrder c1table 10 c1root = some (["Sub", "Base"] : List String).reverse
    ∧ (["Sub", "Base"] : List String).reverse.Nodup
    ∧ ∀ c ∈ (["Sub", "Base"] : List String).reverse, ∀ p,
        parentOf c1table c = some p → isCustomB c1table p = true →
        Before p c (["Sub", "Base"] : List String).reverse :=
  c1_gather_unique_supertypes_first c1table 10 c1root ["Sub", "Base"] (by rfl)

end Widgets
